import Mathlib

/-!
# Guardian: the prompt pipeline of `internal/services/prompt_service.go`

A shallow embedding of `PromptService.ProcessPrompt`, `PromptService.pipeline`
and `PromptService.worker`.  The goroutines of one pipeline run (the caller of
`ProcessPrompt` and the workers of the pool) are modelled as a small-step
transition system: a state records the program counter of every goroutine and
the contents of the three channels, and `step` performs one atomic action of one
goroutine.  A scheduling of the run is a list of `Actor`s.

Logging calls have no influence on control flow and are left out.
-/

namespace Guardian

/-! ## Data model (`internal/models/models.go`) -/

/-- TargetModel represents the target model for processing. -/
structure TargetModel where
  ModelID : Nat
  Token : String
  deriving DecidableEq, Repr

/-- SendRequest represents a request to send a prompt (uuids are numbers here). -/
structure SendRequest where
  UserID : Nat
  ChatID : Option Nat
  Prompt : String
  Target : List TargetModel
  deriving DecidableEq, Repr

/-- Task represents a task that can be used in the pipeline; `Typ` is the Go field
`Type`. -/
structure Task where
  Typ : String
  deriving DecidableEq, Repr

/-- UserTask links a user to a task. -/
structure UserTask where
  UserID : Nat
  Task : Task
  deriving DecidableEq, Repr

/-- Modelled from the spec: the declaration of `models.TaskResult` is not among the
sources; its three fields are the ones the worker fills in (task-type identifier,
success flag, optional error). -/
structure TaskResult where
  TaskType : String
  Success : Bool
  Err : Option String
  deriving DecidableEq, Repr

/-- Modelled from the spec: the `ProcessingTask` interface is not among the sources;
a Check Unit is `evaluate(Request) → (pass : bool, error)`, the Go method
`Process(req) (bool, error)`. -/
abbrev ProcessingTask := SendRequest → Bool × Option String

/-- The collaborators of a `PromptService`: the task-list supplier, the registry
`tasksMap` and the configured worker pool size (the field
`PipelineWorkerPoolSize` of the configuration, a Go `int`). -/
structure Env where
  GetUserTasks : Nat → Except String (List UserTask)
  tasksMap : String → Option ProcessingTask
  PipelineWorkerPoolSize : Int

/-! ## Goroutine states -/

/-- Program counter of one `worker` goroutine. -/
inductive WorkerPc where
  /-- blocked at / about to execute the `select` statement -/
  | select
  /-- received `userTask` from `taskChan` with `ok = true` -/
  | pulled (t : UserTask)
  /-- about to send `r` on `resultsChan`; `raise` tells whether `close(quit)`
  follows -/
  | publish (r : TaskResult) (raise : Bool)
  /-- about to execute `close(quit)` -/
  | raising
  /-- returned (the deferred `wg.Done()` has run) -/
  | exited
  deriving DecidableEq, Repr

/-- Program counter of the goroutine that called `ProcessPrompt`. -/
inductive MainPc where
  /-- at the prompt check of `ProcessPrompt` -/
  | entry
  /-- inside `pipeline`, about to call `GetUserTasks` -/
  | fetch
  /-- in the loop that starts the workers, `i` workers started so far -/
  | spawn (i : Nat)
  /-- in the loop that enqueues the tasks, `rest` still to be sent; with
  `rest = []` the next action is `close(taskChan)` -/
  | feed (rest : List UserTask)
  /-- at `wg.Wait()` -/
  | wait
  /-- `ProcessPrompt` has returned `(verdict, err)` -/
  | done (verdict : String) (err : Option String)
  deriving DecidableEq, Repr

/-- State of one call of `ProcessPrompt`. -/
structure State where
  main : MainPc
  /-- the local variable `userTasks` of `pipeline` -/
  userTasks : List UserTask
  workers : List WorkerPc
  /-- buffered content of `taskChan` -/
  taskChan : List UserTask
  taskClosed : Bool
  /-- buffered content of `resultsChan`, oldest first -/
  resultsChan : List TaskResult
  /-- whether `quit` has been closed -/
  quitClosed : Bool
  /-- the process has panicked (close of a closed channel) -/
  crashed : Bool
  /-- the tasks whose lookup in `tasksMap` has been carried out, oldest first -/
  handled : List UserTask
  /-- the tasks on which a Check Unit has been executed, oldest first -/
  execs : List UserTask
  /-- number of calls of `GetUserTasks` -/
  fetchCalls : Nat
  deriving DecidableEq, Repr

/-- One atomic action: of the calling goroutine, or of worker `i`.  For a worker
at its `select`, `viaQuit` chooses the `<-quit` case over the `<-taskChan` case. -/
inductive Actor where
  | main
  | worker (i : Nat) (viaQuit : Bool)
  deriving DecidableEq, Repr

/-- State at the call of `ProcessPrompt`. -/
def init : State :=
  { main := .entry, userTasks := [], workers := [], taskChan := [], taskClosed := false,
    resultsChan := [], quitClosed := false, crashed := false, handled := [], execs := [],
    fetchCalls := 0 }

/-! ## The code -/

/-- The loop `for result := range resultsChan` of `pipeline` with the final
`return true`: the first result with `Success = false` returns `false`. -/
def drain : List TaskResult → Bool
  | [] => true
  | r :: rs => if !r.Success then false else drain rs

/-- The two `return` statements of `ProcessPrompt` after the prompt check. -/
def verdictOf (pipelineResult : Bool) : String :=
  if pipelineResult then "malicious" else "benign"

/-- The body of `worker` between the receive and the send, for a received task:
the result that will be published and whether `close(quit)` follows. -/
def process (env : Env) (req : SendRequest) (t : UserTask) : TaskResult × Bool :=
  let taskType := t.Task.Typ
  match env.tasksMap taskType with
  | some task =>
    match task req with
    | (_, some err) => ({ TaskType := taskType, Success := false, Err := some err }, true)
    | (false, none) => ({ TaskType := taskType, Success := false, Err := none }, true)
    | (true, none) => ({ TaskType := taskType, Success := true, Err := none }, false)
  | none =>
    ({ TaskType := taskType, Success := false,
       Err := some ("task type " ++ taskType ++ " not found") }, false)

/-- One action of the goroutine that called `ProcessPrompt`. -/
def stepMain (env : Env) (req : SendRequest) (s : State) : Option State :=
  match s.main with
  | .entry =>
    if req.Prompt = "" then some { s with main := .done "" (some "empty prompt") }
    else some { s with main := .fetch }
  | .fetch =>
    match env.GetUserTasks req.UserID with
    | .error _ =>
      some { s with fetchCalls := s.fetchCalls + 1, main := .done (verdictOf false) none }
    | .ok userTasks =>
      some { s with fetchCalls := s.fetchCalls + 1, userTasks := userTasks, main := .spawn 0 }
  | .spawn i =>
    if (i : Int) < env.PipelineWorkerPoolSize then
      some { s with workers := s.workers ++ [.select], main := .spawn (i + 1) }
    else some { s with main := .feed s.userTasks }
  | .feed (t :: rest) =>
    if s.taskChan.length < s.userTasks.length then
      some { s with taskChan := s.taskChan ++ [t], main := .feed rest }
    else none
  | .feed [] => some { s with taskClosed := true, main := .wait }
  | .wait =>
    if s.workers.all (fun w => decide (w = .exited)) then
      some { s with main := .done (verdictOf (drain s.resultsChan)) none }
    else none
  | .done _ _ => none

/-- One action of worker `i`. -/
def stepWorker (env : Env) (req : SendRequest) (s : State) (i : Nat) (viaQuit : Bool) :
    Option State :=
  match s.workers[i]? with
  | none => none
  | some .select =>
    if viaQuit then
      if s.quitClosed then some { s with workers := s.workers.set i .exited } else none
    else
      match s.taskChan with
      | t :: q => some { s with taskChan := q, workers := s.workers.set i (.pulled t) }
      | [] => if s.taskClosed then some { s with workers := s.workers.set i .exited } else none
  | some (.pulled t) =>
    let out := process env req t
    some { s with
      handled := s.handled ++ [t],
      execs := if (env.tasksMap t.Task.Typ).isSome then s.execs ++ [t] else s.execs,
      workers := s.workers.set i (.publish out.1 out.2) }
  | some (.publish r raise) =>
    if s.resultsChan.length < s.userTasks.length then
      some { s with resultsChan := s.resultsChan ++ [r],
                    workers := s.workers.set i (if raise then .raising else .select) }
    else none
  | some .raising =>
    if s.quitClosed then some { s with crashed := true, workers := s.workers.set i .exited }
    else some { s with quitClosed := true, workers := s.workers.set i .exited }
  | some .exited => none

/-- One action of the run; nothing runs after a panic. -/
def step (env : Env) (req : SendRequest) (s : State) (a : Actor) : Option State :=
  if s.crashed then none
  else
    match a with
    | .main => stepMain env req s
    | .worker i viaQuit => stepWorker env req s i viaQuit

/-- Run a scheduling from `s`; `none` when it asks for an action that is not
enabled. -/
def runSchedule (env : Env) (req : SendRequest) : List Actor → State → Option State
  | [], s => some s
  | a :: as, s =>
    match step env req s a with
    | some s' => runSchedule env req as s'
    | none => none

/-- The call `ProcessPrompt(req)` run under the scheduling `sched`: the pair
`(verdict, err)` it returns, or `none` when the scheduling asks for an action that
is not enabled or stops before the call has returned. -/
def ProcessPrompt (env : Env) (req : SendRequest) (sched : List Actor) :
    Option (String × Option String) :=
  match runSchedule env req sched init with
  | some s =>
    match s.main with
    | .done verdict err => some (verdict, err)
    | _ => none
  | none => none

/-- States the run can be in after finitely many actions from `s0`. -/
inductive Reach (env : Env) (req : SendRequest) (s0 : State) : State → Prop where
  | refl : Reach env req s0 s0
  | tail {s s' : State} (a : Actor) : Reach env req s0 s → step env req s a = some s' →
      Reach env req s0 s'

/-! ## Definitions used in the proofs -/

/-- The actions of `step`, one constructor per statement of the code. -/
inductive Trans (env : Env) (req : SendRequest) : State → State → Prop where
  | emptyPrompt (s : State) : s.crashed = false → s.main = .entry → req.Prompt = "" →
      Trans env req s { s with main := .done "" (some "empty prompt") }
  | enter (s : State) : s.crashed = false → s.main = .entry → req.Prompt ≠ "" →
      Trans env req s { s with main := .fetch }
  | fetchErr (s : State) (e : String) : s.crashed = false → s.main = .fetch →
      env.GetUserTasks req.UserID = .error e →
      Trans env req s { s with fetchCalls := s.fetchCalls + 1, main := .done "benign" none }
  | fetchOk (s : State) (ts : List UserTask) : s.crashed = false → s.main = .fetch →
      env.GetUserTasks req.UserID = .ok ts →
      Trans env req s { s with fetchCalls := s.fetchCalls + 1, userTasks := ts, main := .spawn 0 }
  | spawn (s : State) (i : Nat) : s.crashed = false → s.main = .spawn i →
      (i : Int) < env.PipelineWorkerPoolSize →
      Trans env req s { s with workers := s.workers ++ [.select], main := .spawn (i + 1) }
  | spawned (s : State) (i : Nat) : s.crashed = false → s.main = .spawn i →
      ¬ (i : Int) < env.PipelineWorkerPoolSize →
      Trans env req s { s with main := .feed s.userTasks }
  | send (s : State) (t : UserTask) (rest : List UserTask) : s.crashed = false →
      s.main = .feed (t :: rest) → s.taskChan.length < s.userTasks.length →
      Trans env req s { s with taskChan := s.taskChan ++ [t], main := .feed rest }
  | closeTasks (s : State) : s.crashed = false → s.main = .feed [] →
      Trans env req s { s with taskClosed := true, main := .wait }
  | finish (s : State) : s.crashed = false → s.main = .wait →
      (∀ w ∈ s.workers, w = .exited) →
      Trans env req s { s with main := .done (verdictOf (drain s.resultsChan)) none }
  | quit (s : State) (l1 l2 : List WorkerPc) : s.crashed = false →
      s.workers = l1 ++ .select :: l2 → s.quitClosed = true →
      Trans env req s { s with workers := l1 ++ .exited :: l2 }
  | pull (s : State) (l1 l2 : List WorkerPc) (t : UserTask) (q : List UserTask) :
      s.crashed = false → s.workers = l1 ++ .select :: l2 → s.taskChan = t :: q →
      Trans env req s { s with taskChan := q, workers := l1 ++ .pulled t :: l2 }
  | drained (s : State) (l1 l2 : List WorkerPc) : s.crashed = false →
      s.workers = l1 ++ .select :: l2 → s.taskChan = [] → s.taskClosed = true →
      Trans env req s { s with workers := l1 ++ .exited :: l2 }
  | exec (s : State) (l1 l2 : List WorkerPc) (t : UserTask) : s.crashed = false →
      s.workers = l1 ++ .pulled t :: l2 →
      Trans env req s { s with
        handled := s.handled ++ [t],
        execs := if (env.tasksMap t.Task.Typ).isSome then s.execs ++ [t] else s.execs,
        workers := l1 ++ .publish (process env req t).1 (process env req t).2 :: l2 }
  | publish (s : State) (l1 l2 : List WorkerPc) (r : TaskResult) (raise : Bool) :
      s.crashed = false → s.workers = l1 ++ .publish r raise :: l2 →
      s.resultsChan.length < s.userTasks.length →
      Trans env req s { s with resultsChan := s.resultsChan ++ [r],
                               workers := l1 ++ (if raise then .raising else .select) :: l2 }
  | raise (s : State) (l1 l2 : List WorkerPc) : s.crashed = false →
      s.workers = l1 ++ .raising :: l2 → s.quitClosed = false →
      Trans env req s { s with quitClosed := true, workers := l1 ++ .exited :: l2 }
  | doubleClose (s : State) (l1 l2 : List WorkerPc) : s.crashed = false →
      s.workers = l1 ++ .raising :: l2 → s.quitClosed = true →
      Trans env req s { s with crashed := true, workers := l1 ++ .exited :: l2 }

/-- The tasks currently held by workers between receive and lookup. -/
def inflight (ws : List WorkerPc) : List UserTask :=
  ws.filterMap fun w => match w with
    | .pulled t => some t
    | _ => none

/-- The results workers are about to send. -/
def pubs (ws : List WorkerPc) : List TaskResult :=
  ws.filterMap fun w => match w with
    | .publish r _ => some r
    | _ => none

/-- The tasks the calling goroutine has still to send. -/
def restOf (ts : List UserTask) : MainPc → List UserTask
  | .spawn _ => ts
  | .feed rest => rest
  | _ => []

/-- Some result in the list has `Success = false`. -/
def hasFail (rs : List TaskResult) : Prop := ∃ r ∈ rs, r.Success = false

/-- Number of workers the `go` loop starts. -/
def poolSize (env : Env) : Nat := env.PipelineWorkerPoolSize.toNat

/-- State after a successful `GetUserTasks` returned `ts`. -/
def pipelineInit (ts : List UserTask) : State :=
  { init with main := .spawn 0, userTasks := ts, fetchCalls := 1 }

/-- Invariant of the states of a pipeline run on the task list `ts`. -/
structure Inv (env : Env) (req : SendRequest) (ts : List UserTask) (s : State) : Prop where
  userTasks : s.userTasks = ts
  notEntry : s.main ≠ .entry
  notFetch : s.main ≠ .fetch
  started : s.workers.length = (match s.main with | .spawn i => i | _ => poolSize env)
  spawnLe : ∀ i, s.main = .spawn i → i ≤ poolSize env
  closed : s.taskClosed = true ↔ (s.main = .wait ∨ ∃ v e, s.main = .done v e)
  done : ∀ v e, s.main = .done v e →
    (∀ w ∈ s.workers, w = .exited) ∧ e = none ∧ v = verdictOf (drain s.resultsChan)
  tasks : (s.handled ++ inflight s.workers ++ s.taskChan ++ restOf ts s.main).Perm ts
  results : (s.resultsChan ++ pubs s.workers).Perm (s.handled.map fun t => (process env req t).1)
  execs : s.execs = s.handled.filter fun t => (env.tasksMap t.Task.Typ).isSome
  pending : ∀ r b, WorkerPc.publish r b ∈ s.workers → ∃ t ∈ ts, process env req t = (r, b)
  raised : (s.quitClosed = true ∨ s.crashed = true ∨ WorkerPc.raising ∈ s.workers) →
    hasFail s.resultsChan
  exits : WorkerPc.exited ∈ s.workers →
    (s.taskClosed = true ∧ s.taskChan = []) ∨ hasFail s.resultsChan

/-- State after the prompt check let a non-empty prompt through. -/
def fetchState : State := { init with main := .fetch }

/-- State after `ProcessPrompt` rejected an empty prompt. -/
def emptyPromptState : State := { init with main := .done "" (some "empty prompt") }

/-- State after `GetUserTasks` failed. -/
def fetchErrState : State := { init with fetchCalls := 1, main := .done "benign" none }

/-- Bound on the number of actions a worker at this program counter performs
before it receives again or exits. -/
def workerWeight : WorkerPc → Nat
  | .select => 1
  | .pulled _ => 4
  | .publish _ _ => 3
  | .raising => 1
  | .exited => 0

/-- Bound on the number of actions left in a run: every action decreases it. -/
def measure (env : Env) (req : SendRequest) (s : State) : Nat :=
  (match s.main with
    | .entry =>
      match env.GetUserTasks req.UserID with
      | .error _ => 2
      | .ok ts => 2 * poolSize env + 5 + 5 * ts.length
    | .fetch =>
      match env.GetUserTasks req.UserID with
      | .error _ => 1
      | .ok ts => 2 * poolSize env + 4 + 5 * ts.length
    | .spawn i => 2 * (poolSize env - i) + 3 + 5 * s.userTasks.length
    | .feed rest => 2 + 5 * rest.length
    | .wait => 1
    | .done _ _ => 0)
  + (s.workers.map workerWeight).sum + 4 * s.taskChan.length

/-- What `pipeline` returns when every task of `ts` gets handled: whether each of
them yields `Success = true`. -/
def allPass (env : Env) (req : SendRequest) (ts : List UserTask) : Bool :=
  ts.all fun t => (process env req t).1.Success

/-- What a call of `ProcessPrompt` that returns gives back, for a pool of at least one
worker. -/
def returned (env : Env) (req : SendRequest) : String × Option String :=
  if req.Prompt = "" then ("", some "empty prompt")
  else
    match env.GetUserTasks req.UserID with
    | .error _ => ("benign", none)
    | .ok ts => (verdictOf (allPass env req ts), none)

/-- A worker between a receive and its return to the `select` (or its exit). -/
def active : WorkerPc → Bool
  | .pulled _ => true
  | .publish _ _ => true
  | .raising => true
  | _ => false

/-- States of a run in which the workers take turns: the process has not panicked, at
most one worker is between a receive and its next `select`, and none is once `quit` has
been closed. -/
def Calm (s : State) : Prop :=
  s.crashed = false ∧ s.workers.countP active ≤ 1 ∧
    (s.quitClosed = true → s.workers.countP active = 0)

/-- Whether handling the task ends in `close(quit)`: its type is registered and its
Check Unit returns an error or `passed = false`. -/
def raises (env : Env) (req : SendRequest) (t : UserTask) : Bool := (process env req t).2

/-- A worker that is going to execute `close(quit)`. -/
def raiser : WorkerPc → Bool
  | .publish _ raise => raise
  | .raising => true
  | _ => false

/-! ### Concrete inputs -/

/-- A request with a non-empty prompt. -/
def sampleRequest : SendRequest := { UserID := 7, ChatID := none, Prompt := "hello", Target := [] }

/-- A request with an empty prompt. -/
def emptyRequest : SendRequest := { UserID := 7, ChatID := none, Prompt := "", Target := [] }

/-- A Check Unit that passes every request. -/
def passing : ProcessingTask := fun _ => (true, none)

/-- A Check Unit that rejects every request. -/
def rejecting : ProcessingTask := fun _ => (false, none)

/-- A registry with a passing check `external-api` and a rejecting check `deny`. -/
def sampleRegistry : String → Option ProcessingTask := fun k =>
  if k = "external-api" then some passing else if k = "deny" then some rejecting else none

/-- A service whose supplier returns one task per given task type. -/
def sampleEnv (types : List String) (workerPoolSize : Int) : Env :=
  { GetUserTasks := fun u => .ok (types.map fun k => { UserID := u, Task := { Typ := k } })
    tasksMap := sampleRegistry
    PipelineWorkerPoolSize := workerPoolSize }

/-- The registry of `NewPromptService`, with an `external-api` check that rejects the
request. -/
def rejectingEnv (types : List String) (workerPoolSize : Int) : Env :=
  { GetUserTasks := fun u => .ok (types.map fun k => { UserID := u, Task := { Typ := k } })
    tasksMap := fun k => if k = "external-api" then some rejecting else none
    PipelineWorkerPoolSize := workerPoolSize }

/-- A service whose supplier fails. -/
def failingFetchEnv : Env :=
  { GetUserTasks := fun _ => .error "mongo: no reachable servers"
    tasksMap := sampleRegistry
    PipelineWorkerPoolSize := 3 }

/-- Worker 0 alone: the caller starts one worker, sends one task and closes the
queue; the worker receives, executes, publishes and either raises or finds the queue
closed; the caller drains. -/
def oneWorkerSchedule : List Actor :=
  [.main, .main, .main, .main, .main, .main,
   .worker 0 false, .worker 0 false, .worker 0 false, .worker 0 false, .main]

/-- Two workers each hold a task before either publishes. -/
def twoWorkersInFlight : List Actor :=
  [.main, .main, .main, .main, .main, .main, .main, .main,
   .worker 0 false, .worker 1 false, .worker 0 false, .worker 1 false,
   .worker 0 false, .worker 1 false, .worker 0 false]

/-- One worker handles both tasks, the other leaves through `quit`. -/
def sequentialSchedule : List Actor :=
  [.main, .main, .main, .main, .main, .main, .main, .main,
   .worker 1 false, .worker 1 false, .worker 1 false, .worker 1 false, .worker 1 false,
   .worker 1 false, .worker 1 false, .worker 0 true, .main]

/-- The workers receive one task each while the caller is still sending; the
failing result is published first. -/
def interleavedSchedule : List Actor :=
  [.main, .main, .main, .main, .main, .main, .worker 0 false, .main, .worker 1 false, .main,
   .worker 1 false, .worker 1 false, .worker 0 false, .worker 0 false, .worker 1 false,
   .worker 0 true, .main]

/-- The state in which `ProcessPrompt` returns for an empty task list and a pool of
one worker. -/
def emptyListReturned : State :=
  { main := .done "malicious" none, userTasks := [], workers := [.exited], taskChan := [],
    taskClosed := true, resultsChan := [], quitClosed := false, crashed := false,
    handled := [], execs := [], fetchCalls := 1 }

/-- The worker's state right after it received a task of an unregistered type. -/
def pulledUnknown : State :=
  { main := .wait, userTasks := [{ UserID := 7, Task := { Typ := "unknown-type" } }],
    workers := [.pulled { UserID := 7, Task := { Typ := "unknown-type" } }], taskChan := [],
    taskClosed := true, resultsChan := [], quitClosed := false, crashed := false,
    handled := [], execs := [], fetchCalls := 1 }

/-- The state in which `ProcessPrompt` returns after one passing check. -/
def onePassReturned : State :=
  { main := .done "malicious" none,
    userTasks := [{ UserID := 7, Task := { Typ := "external-api" } }],
    workers := [.exited], taskChan := [], taskClosed := true,
    resultsChan := [{ TaskType := "external-api", Success := true, Err := none }],
    quitClosed := false, crashed := false,
    handled := [{ UserID := 7, Task := { Typ := "external-api" } }],
    execs := [{ UserID := 7, Task := { Typ := "external-api" } }], fetchCalls := 1 }

/-! ## Theorems -/

theorem set_split {α : Type} : ∀ {ws : List α} {i : Nat} {w : α}, ws[i]? = some w →
    ∃ l1 l2, ws = l1 ++ w :: l2 ∧ l1.length = i ∧ ∀ w', ws.set i w' = l1 ++ w' :: l2
  | [], i, w, h => by simp at h
  | x :: xs, 0, w, h => by
    simp at h
    exact ⟨[], xs, by simp [h], rfl, fun w' => by simp⟩
  | x :: xs, i + 1, w, h => by
    simp at h
    obtain ⟨l1, l2, h1, h2, h3⟩ := set_split h
    exact ⟨x :: l1, l2, by simp [h1], by simp [h2], fun w' => by simp [h3 w']⟩

theorem step_trans {env : Env} {req : SendRequest} {s s' : State} {a : Actor}
    (h : step env req s a = some s') : Trans env req s s' := by
  unfold step at h
  split at h
  · simp at h
  rename_i hc
  simp at hc
  cases a with
  | main =>
    simp only at h
    unfold stepMain at h
    split at h
    · split at h <;> simp at h <;> subst h
      · exact .emptyPrompt s hc ‹_› ‹_›
      · exact .enter s hc ‹_› ‹_›
    · split at h <;> simp at h <;> subst h
      · exact .fetchErr s _ hc ‹_› ‹_›
      · exact .fetchOk s _ hc ‹_› ‹_›
    · split at h <;> simp at h <;> subst h
      · exact .spawn s _ hc ‹_› ‹_›
      · exact .spawned s _ hc ‹_› ‹_›
    · split at h <;> simp at h; subst h
      exact .send s _ _ hc ‹_› ‹_›
    · simp at h; subst h
      exact .closeTasks s hc ‹_›
    · split at h <;> simp at h; subst h
      rename_i hall
      exact .finish s hc ‹_› (by simpa using hall)
    · simp at h
  | worker i viaQuit =>
    simp only at h
    unfold stepWorker at h
    split at h
    · simp at h
    · rename_i hw
      obtain ⟨l1, l2, h1, -, h3⟩ := set_split hw
      split at h
      · split at h <;> simp at h; subst h
        rw [h3]; exact .quit s l1 l2 hc h1 ‹_›
      · split at h
        · simp at h; subst h
          rw [h3]; exact .pull s l1 l2 _ _ hc h1 ‹_›
        · split at h <;> simp at h; subst h
          rw [h3]; exact .drained s l1 l2 hc h1 ‹_› ‹_›
    · rename_i hw
      obtain ⟨l1, l2, h1, -, h3⟩ := set_split hw
      simp at h; subst h
      rw [h3]; exact .exec s l1 l2 _ hc h1
    · rename_i hw
      obtain ⟨l1, l2, h1, -, h3⟩ := set_split hw
      split at h <;> simp at h; subst h
      rw [h3]; exact .publish s l1 l2 _ _ hc h1 ‹_›
    · rename_i hw
      obtain ⟨l1, l2, h1, -, h3⟩ := set_split hw
      split at h <;> simp at h <;> subst h
      · rw [h3]; exact .doubleClose s l1 l2 hc h1 ‹_›
      · rw [h3]; exact .raise s l1 l2 hc h1 (by simpa using ‹¬ s.quitClosed = true›)
    · simp at h

theorem stepWorker_workers {env : Env} {req : SendRequest} {s s2 : State} {j : Nat}
    {b : Bool} (h : stepWorker env req s j b = some s2) :
    ∃ w', s2.workers = s.workers.set j w' := by
  unfold stepWorker at h
  repeat' split at h
  all_goals first | (cases h; done) | (cases h; exact ⟨_, rfl⟩)

theorem stepMain_workers {env : Env} {req : SendRequest} {s s2 : State}
    (h : stepMain env req s = some s2) :
    s2.workers = s.workers ∨ s2.workers = s.workers ++ [.select] := by
  unfold stepMain at h
  repeat' split at h
  all_goals first | (cases h; done) | (cases h; exact Or.inl rfl) | (cases h; exact Or.inr rfl)

theorem process_raise (env : Env) (req : SendRequest) (t : UserTask) :
    (process env req t).2 = true → (process env req t).1.Success = false := by
  simp only [process]
  split
  · split <;> simp
  · simp

theorem hasFail_append (rs : List TaskResult) (r : TaskResult) :
    hasFail (rs ++ [r]) ↔ hasFail rs ∨ r.Success = false := by
  simp [hasFail, or_and_right, exists_or]

theorem inv_init (env : Env) (req : SendRequest) (ts : List UserTask) :
    Inv env req ts (pipelineInit ts) := by
  constructor <;> simp [pipelineInit, init, inflight, pubs, restOf, hasFail]

theorem perm_of_count {α : Type} [DecidableEq α] {l1 l2 : List α}
    (h : ∀ a, l1.count a = l2.count a) : l1.Perm l2 := List.perm_iff_count.2 h

@[simp] theorem inflight_append (l1 l2 : List WorkerPc) :
    inflight (l1 ++ l2) = inflight l1 ++ inflight l2 := by simp [inflight]

@[simp] theorem inflight_nil : inflight [] = [] := rfl

@[simp] theorem inflight_select (l : List WorkerPc) : inflight (.select :: l) = inflight l := rfl

@[simp] theorem inflight_pulled (t : UserTask) (l : List WorkerPc) :
    inflight (.pulled t :: l) = t :: inflight l := rfl

@[simp] theorem inflight_publish (r : TaskResult) (b : Bool) (l : List WorkerPc) :
    inflight (.publish r b :: l) = inflight l := rfl

@[simp] theorem inflight_raising (l : List WorkerPc) : inflight (.raising :: l) = inflight l := rfl

@[simp] theorem inflight_exited (l : List WorkerPc) : inflight (.exited :: l) = inflight l := rfl

@[simp] theorem pubs_append (l1 l2 : List WorkerPc) :
    pubs (l1 ++ l2) = pubs l1 ++ pubs l2 := by simp [pubs]

@[simp] theorem pubs_nil : pubs [] = [] := rfl

@[simp] theorem pubs_select (l : List WorkerPc) : pubs (.select :: l) = pubs l := rfl

@[simp] theorem pubs_pulled (t : UserTask) (l : List WorkerPc) :
    pubs (.pulled t :: l) = pubs l := rfl

@[simp] theorem pubs_publish (r : TaskResult) (b : Bool) (l : List WorkerPc) :
    pubs (.publish r b :: l) = r :: pubs l := rfl

@[simp] theorem pubs_raising (l : List WorkerPc) : pubs (.raising :: l) = pubs l := rfl

@[simp] theorem pubs_exited (l : List WorkerPc) : pubs (.exited :: l) = pubs l := rfl

set_option maxHeartbeats 1600000 in
theorem inv_step {env : Env} {req : SendRequest} {ts : List UserTask} {s s' : State}
    (hi : Inv env req ts s) (h : Trans env req s s') : Inv env req ts s' := by
  obtain ⟨hU, hE, hF, hS, hL, hC, hD, hT, hR, hX, hP, hQ, hZ⟩ := hi
  cases h with
  | emptyPrompt _ hm _ => exact absurd hm hE
  | enter _ hm _ => exact absurd hm hE
  | fetchErr e _ hm _ => exact absurd hm hF
  | fetchOk ts' _ hm _ => exact absurd hm hF
  | spawn i hc hm hlt =>
    refine ⟨?_, ?_, ?_, ?_, ?_, ?_, ?_, ?_, ?_, ?_, ?_, ?_, ?_⟩
    · simpa [hm, restOf, poolSize] using hU
    · simp [hm, restOf, poolSize]
    · simp [hm, restOf, poolSize]
    · simpa [hm, restOf, poolSize] using hS
    · intro j hj
      simp at hj
      simp only [poolSize]
      omega
    · simpa [hm, restOf, poolSize] using hC
    · simp [hm, restOf, poolSize]
    · simpa [hm, restOf, poolSize] using hT
    · simpa [hm, restOf, poolSize] using hR
    · simpa [hm, restOf, poolSize] using hX
    · simpa [hm, restOf, poolSize] using hP
    · simpa [hm, restOf, poolSize] using hQ
    · simpa [hm, restOf, poolSize] using hZ
  | spawned i hc hm hlt =>
    refine ⟨?_, ?_, ?_, ?_, ?_, ?_, ?_, ?_, ?_, ?_, ?_, ?_, ?_⟩
    · simpa [hm, restOf, poolSize] using hU
    · simp [hm, restOf, poolSize]
    · simp [hm, restOf, poolSize]
    · have h1 := hL i hm
      simp only [hm] at hS
      simp only [poolSize] at h1 ⊢
      omega
    · simp [hm, restOf, poolSize]
    · simpa [hm, restOf, poolSize] using hC
    · simp [hm, restOf, poolSize]
    · simpa [hm, restOf, hU] using hT
    · simpa [hm, restOf, poolSize] using hR
    · simpa [hm, restOf, poolSize] using hX
    · simpa [hm, restOf, poolSize] using hP
    · simpa [hm, restOf, poolSize] using hQ
    · simpa [hm, restOf, poolSize] using hZ
  | send t rest hc hm hlt =>
    refine ⟨?_, ?_, ?_, ?_, ?_, ?_, ?_, ?_, ?_, ?_, ?_, ?_, ?_⟩
    · simpa [hm, restOf, poolSize] using hU
    · simp [hm, restOf, poolSize]
    · simp [hm, restOf, poolSize]
    · simpa [hm, restOf, poolSize] using hS
    · simp [hm, restOf, poolSize]
    · simpa [hm, restOf, poolSize] using hC
    · simp [hm, restOf, poolSize]
    · simpa [hm, restOf, poolSize] using hT
    · simpa [hm, restOf, poolSize] using hR
    · simpa [hm, restOf, poolSize] using hX
    · simpa [hm, restOf, poolSize] using hP
    · simpa [hm, restOf, poolSize] using hQ
    · have hnc : s.taskClosed = false := by
        cases hb : s.taskClosed with
        | false => rfl
        | true => simp [hm] at hC; simp [hC] at hb
      intro hx
      rcases hZ hx with ⟨h1, -⟩ | h1
      · simp [hnc] at h1
      · exact Or.inr h1
  | closeTasks hc hm =>
    refine ⟨?_, ?_, ?_, ?_, ?_, ?_, ?_, ?_, ?_, ?_, ?_, ?_, ?_⟩
    · simpa [hm, restOf, poolSize] using hU
    · simp [hm, restOf, poolSize]
    · simp [hm, restOf, poolSize]
    · simpa [hm, restOf, poolSize] using hS
    · simp [hm, restOf, poolSize]
    · simp [hm, restOf, poolSize]
    · simp [hm, restOf, poolSize]
    · simpa [hm, restOf, poolSize] using hT
    · simpa [hm, restOf, poolSize] using hR
    · simpa [hm, restOf, poolSize] using hX
    · simpa [hm, restOf, poolSize] using hP
    · simpa [hm, restOf, poolSize] using hQ
    · have hnc : s.taskClosed = false := by
        cases hb : s.taskClosed with
        | false => rfl
        | true => simp [hm] at hC; simp [hC] at hb
      intro hx
      rcases hZ hx with ⟨h1, -⟩ | h1
      · simp [hnc] at h1
      · exact Or.inr h1
  | finish hc hm hall =>
    refine ⟨?_, ?_, ?_, ?_, ?_, ?_, ?_, ?_, ?_, ?_, ?_, ?_, ?_⟩
    · simpa [hm, restOf, poolSize] using hU
    · simp [hm, restOf, poolSize]
    · simp [hm, restOf, poolSize]
    · simpa [hm, restOf, poolSize] using hS
    · simp [hm, restOf, poolSize]
    · simpa [hm, restOf, poolSize] using hC
    · intro v e hv
      simp at hv
      exact ⟨hall, hv.2.symm, hv.1.symm⟩
    · simpa [hm, restOf, poolSize] using hT
    · simpa [hm, restOf, poolSize] using hR
    · simpa [hm, restOf, poolSize] using hX
    · simpa [hm, restOf, poolSize] using hP
    · simpa [hm, restOf, poolSize] using hQ
    · simpa [hm, restOf, poolSize] using hZ
  | quit l1 l2 hc hw hq =>
    refine ⟨?_, ?_, ?_, ?_, ?_, ?_, ?_, ?_, ?_, ?_, ?_, ?_, ?_⟩
    · simpa [hw, restOf, poolSize] using hU
    · simpa [hw, restOf, poolSize] using hE
    · simpa [hw, restOf, poolSize] using hF
    · simpa [hw, restOf, poolSize] using hS
    · simpa [hw, restOf, poolSize] using hL
    · simpa [hw, restOf, poolSize] using hC
    · intro v e hv
      have := (hD v e hv).1 _ (by rw [hw]; exact List.mem_append_right _ (List.mem_cons_self _ _))
      simp at this
    · simpa [hw, restOf, poolSize] using hT
    · simpa [hw, restOf, poolSize] using hR
    · simpa [hw, restOf, poolSize] using hX
    · simpa [hw, restOf, poolSize] using hP
    · simpa [hw, restOf, poolSize] using hQ
    · intro _
      exact Or.inr (hQ (Or.inl hq))
  | pull l1 l2 t q hc hw hq =>
    refine ⟨?_, ?_, ?_, ?_, ?_, ?_, ?_, ?_, ?_, ?_, ?_, ?_, ?_⟩
    · simpa [hw, restOf, poolSize] using hU
    · simpa [hw, restOf, poolSize] using hE
    · simpa [hw, restOf, poolSize] using hF
    · simpa [hw, restOf, poolSize] using hS
    · simpa [hw, restOf, poolSize] using hL
    · simpa [hw, restOf, poolSize] using hC
    · intro v e hv
      have := (hD v e hv).1 _ (by rw [hw]; exact List.mem_append_right _ (List.mem_cons_self _ _))
      simp at this
    · refine List.Perm.trans (List.perm_iff_count.2 fun a => ?_) hT
      simp [hw, hq, List.count_cons]
      omega
    · simpa [hw, restOf, poolSize] using hR
    · simpa [hw, restOf, poolSize] using hX
    · simpa [hw, restOf, poolSize] using hP
    · simpa [hw, restOf, poolSize] using hQ
    · intro hx
      have hx' : WorkerPc.exited ∈ s.workers := by
        simp [hw] at hx ⊢
        exact hx
      rcases hZ hx' with ⟨-, h1⟩ | h1
      · simp [hq] at h1
      · exact Or.inr h1
  | drained l1 l2 hc hw hq hcl =>
    refine ⟨?_, ?_, ?_, ?_, ?_, ?_, ?_, ?_, ?_, ?_, ?_, ?_, ?_⟩
    · simpa [hw, restOf, poolSize] using hU
    · simpa [hw, restOf, poolSize] using hE
    · simpa [hw, restOf, poolSize] using hF
    · simpa [hw, restOf, poolSize] using hS
    · simpa [hw, restOf, poolSize] using hL
    · simpa [hw, restOf, poolSize] using hC
    · intro v e hv
      have := (hD v e hv).1 _ (by rw [hw]; exact List.mem_append_right _ (List.mem_cons_self _ _))
      simp at this
    · simpa [hw, restOf, poolSize] using hT
    · simpa [hw, restOf, poolSize] using hR
    · simpa [hw, restOf, poolSize] using hX
    · simpa [hw, restOf, poolSize] using hP
    · simpa [hw, restOf, poolSize] using hQ
    · intro _
      exact Or.inl ⟨hcl, hq⟩
  | exec l1 l2 t hc hw =>
    refine ⟨?_, ?_, ?_, ?_, ?_, ?_, ?_, ?_, ?_, ?_, ?_, ?_, ?_⟩
    · simpa [hw, restOf, poolSize] using hU
    · simpa [hw, restOf, poolSize] using hE
    · simpa [hw, restOf, poolSize] using hF
    · simpa [hw, restOf, poolSize] using hS
    · simpa [hw, restOf, poolSize] using hL
    · simpa [hw, restOf, poolSize] using hC
    · intro v e hv
      have := (hD v e hv).1 _ (by rw [hw]; exact List.mem_append_right _ (List.mem_cons_self _ _))
      simp at this
    · refine List.Perm.trans (List.perm_iff_count.2 fun a => ?_) hT
      simp [hw, List.count_cons]
      omega
    · have h1 := List.perm_iff_count.1 hR
      refine List.perm_iff_count.2 fun a => ?_
      have h2 := h1 a
      simp [hw, List.count_cons] at h2 ⊢
      omega
    · show (if (env.tasksMap t.Task.Typ).isSome then s.execs ++ [t] else s.execs) = _
      rw [List.filter_append, hX]
      cases hs : (env.tasksMap t.Task.Typ).isSome <;> simp [hs]
    · intro r b hm
      have hm' : WorkerPc.publish r b ∈ l1 ∨
          WorkerPc.publish r b = .publish (process env req t).1 (process env req t).2 ∨
          WorkerPc.publish r b ∈ l2 := by simpa using hm
      have hin : ∀ w, (w ∈ l1 ∨ w ∈ l2) → w ∈ s.workers := by
        intro w h1
        rw [hw]
        simp only [List.mem_append, List.mem_cons]
        tauto
      rcases hm' with h1 | h1 | h1
      · exact hP r b (hin _ (Or.inl h1))
      · have htm : t ∈ ts := by
          refine hT.subset ?_
          simp [hw]
        injection h1 with h2 h3
        exact ⟨t, htm, by rw [h2, h3]⟩
      · exact hP r b (hin _ (Or.inr h1))
    · simpa [hw, restOf, poolSize] using hQ
    · simpa [hw, restOf, poolSize] using hZ
  | publish l1 l2 r b hc hw hlt =>
    refine ⟨?_, ?_, ?_, ?_, ?_, ?_, ?_, ?_, ?_, ?_, ?_, ?_, ?_⟩
    · simpa [hw, restOf, poolSize] using hU
    · simpa [hw, restOf, poolSize] using hE
    · simpa [hw, restOf, poolSize] using hF
    · simpa [hw, restOf, poolSize] using hS
    · simpa [hw, restOf, poolSize] using hL
    · simpa [hw, restOf, poolSize] using hC
    · intro v e hv
      have := (hD v e hv).1 _ (by rw [hw]; exact List.mem_append_right _ (List.mem_cons_self _ _))
      simp at this
    · cases b <;> simpa [hw, restOf] using hT
    · have h1 := List.perm_iff_count.1 hR
      refine List.perm_iff_count.2 fun a => ?_
      have h2 := h1 a
      cases b <;> simp [hw, List.count_cons] at h2 ⊢ <;> omega
    · simpa [hw, restOf, poolSize] using hX
    · intro r' b' hm
      apply hP r' b'
      rw [hw]
      cases b <;> simp at hm ⊢ <;> tauto
    · intro hx
      rw [hasFail_append]
      cases b with
      | true =>
        obtain ⟨t, -, ht⟩ := hP r true (by simp [hw])
        have := process_raise env req t (by rw [ht])
        rw [ht] at this
        exact Or.inr this
      | false =>
        refine Or.inl (hQ ?_)
        simp [hw] at hx ⊢
        exact hx
    · intro hx
      have hx' : WorkerPc.exited ∈ s.workers := by
        rw [hw]
        cases b <;> simp at hx ⊢ <;> exact hx
      rcases hZ hx' with h1 | h1
      · exact Or.inl h1
      · exact Or.inr ((hasFail_append _ _).2 (Or.inl h1))
  | raise l1 l2 hc hw hq =>
    refine ⟨?_, ?_, ?_, ?_, ?_, ?_, ?_, ?_, ?_, ?_, ?_, ?_, ?_⟩
    · simpa [hw, restOf, poolSize] using hU
    · simpa [hw, restOf, poolSize] using hE
    · simpa [hw, restOf, poolSize] using hF
    · simpa [hw, restOf, poolSize] using hS
    · simpa [hw, restOf, poolSize] using hL
    · simpa [hw, restOf, poolSize] using hC
    · intro v e hv
      have := (hD v e hv).1 _ (by rw [hw]; exact List.mem_append_right _ (List.mem_cons_self _ _))
      simp at this
    · simpa [hw, restOf, poolSize] using hT
    · simpa [hw, restOf, poolSize] using hR
    · simpa [hw, restOf, poolSize] using hX
    · simpa [hw, restOf, poolSize] using hP
    · intro _
      exact hQ (Or.inr (Or.inr (by simp [hw])))
    · intro _
      exact Or.inr (hQ (Or.inr (Or.inr (by simp [hw]))))
  | doubleClose l1 l2 hc hw hq =>
    refine ⟨?_, ?_, ?_, ?_, ?_, ?_, ?_, ?_, ?_, ?_, ?_, ?_, ?_⟩
    · simpa [hw, restOf, poolSize] using hU
    · simpa [hw, restOf, poolSize] using hE
    · simpa [hw, restOf, poolSize] using hF
    · simpa [hw, restOf, poolSize] using hS
    · simpa [hw, restOf, poolSize] using hL
    · simpa [hw, restOf, poolSize] using hC
    · intro v e hv
      have := (hD v e hv).1 _ (by rw [hw]; exact List.mem_append_right _ (List.mem_cons_self _ _))
      simp at this
    · simpa [hw, restOf, poolSize] using hT
    · simpa [hw, restOf, poolSize] using hR
    · simpa [hw, restOf, poolSize] using hX
    · simpa [hw, restOf, poolSize] using hP
    · intro _
      exact hQ (Or.inl hq)
    · intro _
      exact Or.inr (hQ (Or.inr (Or.inr (by simp [hw]))))

theorem Reach.trans {env : Env} {req : SendRequest} {s0 s1 s2 : State}
    (h1 : Reach env req s0 s1) (h2 : Reach env req s1 s2) : Reach env req s0 s2 := by
  induction h2 with
  | refl => exact h1
  | tail a _ hs ih => exact .tail a ih hs

theorem reach_inv {env : Env} {req : SendRequest} {ts : List UserTask} {s : State}
    (h : Reach env req (pipelineInit ts) s) : Inv env req ts s := by
  induction h with
  | refl => exact inv_init env req ts
  | tail a _ hs ih => exact inv_step ih (step_trans hs)

theorem runSchedule_reach {env : Env} {req : SendRequest} :
    ∀ (sched : List Actor) (s0 s : State), runSchedule env req sched s0 = some s →
      Reach env req s0 s
  | [], s0, s, h => by
    simp [runSchedule] at h
    subst h
    exact .refl
  | a :: as, s0, s, h => by
    simp only [runSchedule] at h
    split at h
    · rename_i s1 hs
      have h1 : Reach env req s0 s1 := .tail a .refl hs
      exact h1.trans (runSchedule_reach as s1 s h)
    · simp at h

theorem reach_runSchedule {env : Env} {req : SendRequest} {s0 s : State}
    (h : Reach env req s0 s) : ∃ sched, runSchedule env req sched s0 = some s := by
  induction h with
  | refl => exact ⟨[], rfl⟩
  | tail a _ hs ih =>
    obtain ⟨sched, hr⟩ := ih
    refine ⟨sched ++ [a], ?_⟩
    clear * - hr hs
    induction sched generalizing s0 with
    | nil =>
      simp only [runSchedule, Option.some.injEq] at hr
      subst hr
      simp [runSchedule, hs]
    | cons b bs ih =>
      simp only [runSchedule, List.cons_append] at hr ⊢
      cases hb : step env req s0 b with
      | none => simp [hb] at hr
      | some s1 =>
        simp only [hb] at hr ⊢
        exact ih hr

theorem trans_init {env : Env} {req : SendRequest} {s : State} (h : Trans env req init s) :
    (req.Prompt = "" ∧ s = emptyPromptState) ∨ (req.Prompt ≠ "" ∧ s = fetchState) := by
  cases h with
  | emptyPrompt _ _ hp => exact Or.inl ⟨hp, rfl⟩
  | enter _ _ hp => exact Or.inr ⟨hp, rfl⟩
  | _ => simp [init] at *

theorem trans_fetchState {env : Env} {req : SendRequest} {s : State}
    (h : Trans env req fetchState s) :
    ((∃ e, env.GetUserTasks req.UserID = .error e) ∧ s = fetchErrState) ∨
    (∃ ts, env.GetUserTasks req.UserID = .ok ts ∧ s = pipelineInit ts) := by
  cases h with
  | fetchErr e _ _ he => exact Or.inl ⟨⟨e, he⟩, rfl⟩
  | fetchOk ts _ _ he => exact Or.inr ⟨ts, he, rfl⟩
  | _ => simp [fetchState, init] at *

theorem trans_done {env : Env} {req : SendRequest} {s s' : State} {v : String}
    {e : Option String} (hm : s.main = .done v e) (hw : ∀ w ∈ s.workers, w = .exited)
    (h : Trans env req s s') : False := by
  cases h with
  | quit l1 l2 _ h1 _ => simpa using hw .select (by simp [h1])
  | pull l1 l2 _ _ _ h1 _ => simpa using hw .select (by simp [h1])
  | drained l1 l2 _ h1 _ _ => simpa using hw .select (by simp [h1])
  | exec l1 l2 t _ h1 => simpa using hw (.pulled t) (by simp [h1])
  | publish l1 l2 r b _ h1 _ => simpa using hw (.publish r b) (by simp [h1])
  | raise l1 l2 _ h1 _ => simpa using hw .raising (by simp [h1])
  | doubleClose l1 l2 _ h1 _ => simpa using hw .raising (by simp [h1])
  | _ => simp_all

/-- Where a call of `ProcessPrompt` can be: in its prologue, or inside a pipeline
run on the fetched task list. -/
theorem reach_init {env : Env} {req : SendRequest} {s : State} (h : Reach env req init s) :
    s = init ∨ (req.Prompt = "" ∧ s = emptyPromptState) ∨ (req.Prompt ≠ "" ∧ s = fetchState) ∨
    (req.Prompt ≠ "" ∧ (∃ e, env.GetUserTasks req.UserID = .error e) ∧ s = fetchErrState) ∨
    (req.Prompt ≠ "" ∧ ∃ ts, env.GetUserTasks req.UserID = .ok ts ∧
      Reach env req (pipelineInit ts) s) := by
  induction h with
  | refl => exact Or.inl rfl
  | tail a _ hs ih =>
    rcases ih with rfl | ⟨hp, rfl⟩ | ⟨hp, rfl⟩ | ⟨hp, he, rfl⟩ | ⟨hp, ts, hts, hr⟩
    · rcases trans_init (step_trans hs) with h1 | h1
      · exact Or.inr (Or.inl h1)
      · exact Or.inr (Or.inr (Or.inl h1))
    · exact (trans_done (v := "") (e := some "empty prompt") rfl (by simp [emptyPromptState, init])
        (step_trans hs)).elim
    · rcases trans_fetchState (step_trans hs) with ⟨h1, h2⟩ | ⟨ts, h1, h2⟩
      · exact Or.inr (Or.inr (Or.inr (Or.inl ⟨hp, h1, h2⟩)))
      · exact Or.inr (Or.inr (Or.inr (Or.inr ⟨hp, ts, h1, h2 ▸ .refl⟩)))
    · exact (trans_done (v := "benign") (e := none) rfl (by simp [fetchErrState, init])
        (step_trans hs)).elim
    · exact Or.inr (Or.inr (Or.inr (Or.inr ⟨hp, ts, hts, .tail a hr hs⟩)))

theorem trans_measure {env : Env} {req : SendRequest} {s s' : State}
    (h : Trans env req s s') : measure env req s' < measure env req s := by
  cases h with
  | emptyPrompt _ hm _ =>
    simp only [measure, hm]
    split <;> omega
  | enter _ hm _ =>
    simp only [measure, hm]
    split <;> omega
  | fetchErr e _ hm he => simp [measure, hm, he]
  | fetchOk ts _ hm he =>
    simp only [measure, hm, he]
    omega
  | spawn i _ hm hlt =>
    have : i < poolSize env := by
      simp only [poolSize]
      omega
    simp only [measure, hm, List.map_append, List.sum_append, List.map_cons, List.map_nil,
      List.sum_cons, List.sum_nil, workerWeight]
    omega
  | spawned i _ hm _ =>
    simp only [measure, hm]
    omega
  | send t rest _ hm _ =>
    simp only [measure, hm, List.length_append, List.length_cons, List.length_nil]
    omega
  | closeTasks _ hm => simp [measure, hm]
  | finish _ hm _ => simp [measure, hm]
  | quit l1 l2 _ hw _ => simp [measure, hw, workerWeight]
  | pull l1 l2 t q _ hw hq =>
    simp [measure, hw, hq, workerWeight]
    omega
  | drained l1 l2 _ hw _ _ => simp [measure, hw, workerWeight]
  | exec l1 l2 t _ hw => simp [measure, hw, workerWeight]
  | publish l1 l2 r b _ hw _ =>
    cases b <;> simp [measure, hw, workerWeight]
  | raise l1 l2 _ hw _ => simp [measure, hw, workerWeight]
  | doubleClose l1 l2 _ hw _ => simp [measure, hw, workerWeight]

/-- A scheduling that runs is no longer than the measure of its first state. -/
theorem runSchedule_length {env : Env} {req : SendRequest} :
    ∀ (sched : List Actor) (s0 s : State), runSchedule env req sched s0 = some s →
      sched.length + measure env req s ≤ measure env req s0
  | [], s0, s, h => by
    simp only [runSchedule, Option.some.injEq] at h
    subst h
    simp
  | a :: as, s0, s, h => by
    simp only [runSchedule] at h
    cases hb : step env req s0 a with
    | none => simp [hb] at h
    | some s1 =>
      simp only [hb] at h
      have h1 := runSchedule_length as s1 s h
      have h2 := trans_measure (step_trans hb)
      simp only [List.length_cons]
      omega

theorem mem_pubs {r : TaskResult} {b : Bool} {ws : List WorkerPc}
    (h : WorkerPc.publish r b ∈ ws) : r ∈ pubs ws := by
  simp only [pubs, List.mem_filterMap]
  exact ⟨_, h, rfl⟩

theorem mem_inflight {t : UserTask} {ws : List WorkerPc}
    (h : WorkerPc.pulled t ∈ ws) : t ∈ inflight ws := by
  simp only [inflight, List.mem_filterMap]
  exact ⟨_, h, rfl⟩

theorem inflight_of_exited {ws : List WorkerPc} (h : ∀ w ∈ ws, w = .exited) :
    inflight ws = [] := by
  induction ws with
  | nil => rfl
  | cons w ws ih =>
    have h1 := h w (List.mem_cons_self _ _)
    subst h1
    simpa using ih fun w hw => h w (List.mem_cons_of_mem _ hw)

theorem pubs_of_exited {ws : List WorkerPc} (h : ∀ w ∈ ws, w = .exited) : pubs ws = [] := by
  induction ws with
  | nil => rfl
  | cons w ws ih =>
    have h1 := h w (List.mem_cons_self _ _)
    subst h1
    simpa using ih fun w hw => h w (List.mem_cons_of_mem _ hw)

/-- Inside a pipeline run no goroutine is stuck: unless the process has panicked or
`ProcessPrompt` has returned, some action is enabled. -/
theorem inv_progress {env : Env} {req : SendRequest} {ts : List UserTask} {s : State}
    (hi : Inv env req ts s) (hc : s.crashed = false) (hd : ∀ v e, s.main ≠ .done v e) :
    ∃ a s', step env req s a = some s' := by
  have hlenT := hi.tasks.length_eq
  have hlenR := hi.results.length_eq
  simp only [List.length_append, List.length_map] at hlenT hlenR
  cases hm : s.main with
  | entry => exact absurd hm hi.notEntry
  | fetch => exact absurd hm hi.notFetch
  | spawn i =>
    refine ⟨.main, ?_⟩
    by_cases hlt : (i : Int) < env.PipelineWorkerPoolSize
    · exact Option.isSome_iff_exists.1 (by simp [step, hc, stepMain, hm, hlt])
    · exact Option.isSome_iff_exists.1 (by simp [step, hc, stepMain, hm, hlt])
  | feed rest =>
    refine ⟨.main, ?_⟩
    cases rest with
    | nil => exact Option.isSome_iff_exists.1 (by simp [step, hc, stepMain, hm])
    | cons t rest =>
      have : s.taskChan.length < s.userTasks.length := by
        rw [hi.userTasks]
        simp only [hm, restOf, List.length_cons] at hlenT
        omega
      exact Option.isSome_iff_exists.1 (by simp [step, hc, stepMain, hm, this])
  | done v e => exact absurd hm (hd v e)
  | wait =>
    by_cases hall : ∀ w ∈ s.workers, w = .exited
    · refine ⟨.main, Option.isSome_iff_exists.1 ?_⟩
      have : (s.workers.all fun w => decide (w = .exited)) = true := by simpa using hall
      simp [step, hc, stepMain, hm, this]
    · push_neg at hall
      obtain ⟨w, hw, hne⟩ := hall
      obtain ⟨i, hiw⟩ := List.getElem?_of_mem hw
      have hcl : s.taskClosed = true := hi.closed.2 (Or.inl hm)
      cases w with
      | select =>
        refine ⟨.worker i false, ?_⟩
        cases hq : s.taskChan with
        | nil => exact Option.isSome_iff_exists.1 (by simp [step, hc, stepWorker, hiw, hq, hcl])
        | cons t q => exact Option.isSome_iff_exists.1 (by simp [step, hc, stepWorker, hiw, hq])
      | pulled t => exact ⟨.worker i false, Option.isSome_iff_exists.1 (by simp [step, hc, stepWorker, hiw])⟩
      | publish r b =>
        have h1 : 0 < (pubs s.workers).length := List.length_pos_of_mem (mem_pubs hw)
        have : s.resultsChan.length < s.userTasks.length := by
          rw [hi.userTasks]
          omega
        exact ⟨.worker i false, Option.isSome_iff_exists.1 (by simp [step, hc, stepWorker, hiw, this])⟩
      | raising =>
        refine ⟨.worker i false, ?_⟩
        cases hq : s.quitClosed with
        | true => exact Option.isSome_iff_exists.1 (by simp [step, hc, stepWorker, hiw, hq])
        | false => exact Option.isSome_iff_exists.1 (by simp [step, hc, stepWorker, hiw, hq])
      | exited => exact absurd rfl hne

theorem drain_eq_all (rs : List TaskResult) : drain rs = rs.all fun r => r.Success := by
  induction rs with
  | nil => rfl
  | cons r rs ih => cases h : r.Success <;> simp [drain, h, ih]

theorem drain_false_iff (rs : List TaskResult) : drain rs = false ↔ hasFail rs := by
  rw [drain_eq_all, hasFail]
  constructor
  · intro h
    by_contra hn
    push_neg at hn
    have : (rs.all fun r => r.Success) = true := by
      rw [List.all_eq_true]
      intro r hr
      simpa using hn r hr
    simp [this] at h
  · rintro ⟨r, hr, hf⟩
    cases hb : (rs.all fun r => r.Success) with
    | false => rfl
    | true =>
      rw [List.all_eq_true] at hb
      simp [hb r hr] at hf

/-- In a state where `ProcessPrompt` has returned from a pipeline run with at least
one worker, the verdict is fixed by the task list alone. -/
theorem inv_done {env : Env} {req : SendRequest} {ts : List UserTask} {s : State}
    (hi : Inv env req ts s) {v : String} {e : Option String} (hm : s.main = .done v e)
    (hp : 1 ≤ env.PipelineWorkerPoolSize) :
    e = none ∧ v = verdictOf (allPass env req ts) ∧
      (¬ hasFail s.resultsChan → s.handled.Perm ts ∧
        s.resultsChan.Perm (ts.map fun t => (process env req t).1)) := by
  obtain ⟨hall, he, hv⟩ := hi.done v e hm
  have hT := hi.tasks
  have hR := hi.results
  simp only [inflight_of_exited hall, pubs_of_exited hall, hm, restOf, List.append_nil] at hT hR
  have hne : WorkerPc.exited ∈ s.workers := by
    have hl := hi.started
    simp only [hm, poolSize] at hl
    cases hws : s.workers with
    | nil =>
      simp [hws] at hl
      omega
    | cons w ws =>
      have := hall w (by simp [hws])
      subst this
      simp
  have key : ¬ hasFail s.resultsChan → s.handled.Perm ts ∧
      s.resultsChan.Perm (ts.map fun t => (process env req t).1) := by
    intro hnf
    rcases hi.exits hne with ⟨-, hq⟩ | hf
    · simp only [hq, List.append_nil] at hT
      exact ⟨hT, hR.trans (hT.map _)⟩
    · exact absurd hf hnf
  refine ⟨he, ?_, key⟩
  rw [hv]
  congr 1
  cases hd : drain s.resultsChan with
  | false =>
    obtain ⟨r, hr, hf⟩ := (drain_false_iff _).1 hd
    have hr' := hR.subset hr
    simp only [List.mem_map] at hr'
    obtain ⟨t, ht, rfl⟩ := hr'
    have htm : t ∈ ts := hT.subset (List.mem_append_left _ ht)
    symm
    cases hb : allPass env req ts with
    | false => rfl
    | true =>
      simp only [allPass, List.all_eq_true] at hb
      simp [hb t htm] at hf
  | true =>
    have hnf : ¬ hasFail s.resultsChan := by
      intro hf
      simp [(drain_false_iff _).2 hf] at hd
    obtain ⟨-, hperm⟩ := key hnf
    symm
    simp only [allPass, List.all_eq_true]
    intro t ht
    have : (process env req t).1 ∈ s.resultsChan :=
      hperm.symm.subset (List.mem_map_of_mem _ ht)
    by_contra hcon
    exact hnf ⟨_, this, by simpa using hcon⟩

theorem reach_done {env : Env} {req : SendRequest} {s : State} (h : Reach env req init s)
    {v : String} {e : Option String} (hm : s.main = .done v e)
    (hp : 1 ≤ env.PipelineWorkerPoolSize) : (v, e) = returned env req := by
  rcases reach_init h with rfl | ⟨hp', rfl⟩ | ⟨hp', rfl⟩ | ⟨hp', ⟨e', he⟩, rfl⟩ | ⟨hp', ts, hts, hr⟩
  · simp [init] at hm
  · simp only [emptyPromptState, MainPc.done.injEq] at hm
    simp [returned, hp', hm.1, hm.2]
  · simp [fetchState] at hm
  · simp only [fetchErrState, MainPc.done.injEq] at hm
    simp [returned, hp', he, hm.1, hm.2]
  · obtain ⟨h1, h2, -⟩ := inv_done (reach_inv hr) hm hp
    simp [returned, hp', hts, h1, h2]

/-- A call of `ProcessPrompt` is never stuck: unless the process has panicked or the
call has returned, some action is enabled. -/
theorem reach_progress {env : Env} {req : SendRequest} {s : State}
    (h : Reach env req init s) (hc : s.crashed = false) (hd : ∀ v e, s.main ≠ .done v e) :
    ∃ a s', step env req s a = some s' := by
  rcases reach_init h with rfl | ⟨hp', rfl⟩ | ⟨hp', rfl⟩ | ⟨hp', ⟨e', he⟩, rfl⟩ | ⟨hp', ts, hts, hr⟩
  · refine ⟨.main, Option.isSome_iff_exists.1 ?_⟩
    by_cases hp : req.Prompt = "" <;> simp [step, stepMain, init, hp]
  · exact absurd rfl (hd _ _)
  · refine ⟨.main, Option.isSome_iff_exists.1 ?_⟩
    cases hg : env.GetUserTasks req.UserID <;> simp [step, stepMain, fetchState, init, hg]
  · exact absurd rfl (hd _ _)
  · exact inv_progress (reach_inv hr) hc hd

theorem ProcessPrompt_some {env : Env} {req : SendRequest} {sched : List Actor}
    {r : String × Option String} (h : ProcessPrompt env req sched = some r) :
    ∃ s, Reach env req init s ∧ s.main = .done r.1 r.2 := by
  unfold ProcessPrompt at h
  split at h
  · rename_i s hs
    split at h
    · rename_i v e hm
      simp only [Option.some.injEq] at h
      subst h
      exact ⟨s, runSchedule_reach _ _ _ hs, hm⟩
    · simp at h
  · simp at h

theorem process_pass {env : Env} {req : SendRequest} {t : UserTask} {task : ProcessingTask}
    (h1 : env.tasksMap t.Task.Typ = some task) (h2 : task req = (true, none)) :
    process env req t = ({ TaskType := t.Task.Typ, Success := true, Err := none }, false) := by
  simp [process, h1, h2]

theorem process_notFound {env : Env} {req : SendRequest} {t : UserTask}
    (h1 : env.tasksMap t.Task.Typ = none) :
    process env req t =
      (⟨t.Task.Typ, false, some ("task type " ++ t.Task.Typ ++ " not found")⟩, false) := by
  simp [process, h1]

theorem countP_set {p : WorkerPc → Bool} {ws : List WorkerPc} {i : Nat} {w : WorkerPc}
    (h : ws[i]? = some w) (w' : WorkerPc) :
    (ws.set i w').countP p + (if p w then 1 else 0) =
      ws.countP p + (if p w' then 1 else 0) := by
  obtain ⟨l1, l2, h1, -, h3⟩ := set_split h
  rw [h3 w', h1]
  simp only [List.countP_append, List.countP_cons]
  omega

theorem stepMain_frame {env : Env} {req : SendRequest} {s s2 : State}
    (h : stepMain env req s = some s2) :
    s2.crashed = s.crashed ∧ s2.quitClosed = s.quitClosed := by
  unfold stepMain at h
  repeat' split at h
  all_goals first | (cases h; done) | (cases h; exact ⟨rfl, rfl⟩)

theorem calm_main {env : Env} {req : SendRequest} {s s2 : State} (hc : Calm s)
    (h : step env req s .main = some s2) : Calm s2 := by
  have h' : stepMain env req s = some s2 := by simpa [step, hc.1] using h
  obtain ⟨h1, h2⟩ := stepMain_frame h'
  have h3 : s2.workers.countP active = s.workers.countP active := by
    rcases stepMain_workers h' with h3 | h3
    · rw [h3]
    · rw [h3]
      simp [active]
  exact ⟨h1.trans hc.1, h3 ▸ hc.2.1, fun hq => h3 ▸ hc.2.2 (h2 ▸ hq)⟩

theorem step_exec {env : Env} {req : SendRequest} {s : State} {i : Nat} {t : UserTask}
    (hc : s.crashed = false) (hw : s.workers[i]? = some (.pulled t)) (b : Bool) :
    step env req s (.worker i b) = some { s with
      handled := s.handled ++ [t],
      execs := if (env.tasksMap t.Task.Typ).isSome then s.execs ++ [t] else s.execs,
      workers := s.workers.set i (.publish (process env req t).1 (process env req t).2) } := by
  simp [step, hc, stepWorker, hw]

theorem step_publish {env : Env} {req : SendRequest} {s : State} {i : Nat} {r : TaskResult}
    {raise : Bool} (hc : s.crashed = false) (hw : s.workers[i]? = some (.publish r raise))
    (hcap : s.resultsChan.length < s.userTasks.length) (b : Bool) :
    step env req s (.worker i b) = some { s with
      resultsChan := s.resultsChan ++ [r],
      workers := s.workers.set i (if raise then .raising else .select) } := by
  simp [step, hc, stepWorker, hw, hcap]

theorem step_raise {env : Env} {req : SendRequest} {s : State} {i : Nat}
    (hc : s.crashed = false) (hw : s.workers[i]? = some .raising)
    (hq : s.quitClosed = false) (b : Bool) :
    step env req s (.worker i b) =
      some { s with quitClosed := true, workers := s.workers.set i .exited } := by
  simp [step, hc, stepWorker, hw, hq]

theorem step_quit {env : Env} {req : SendRequest} {s : State} {i : Nat}
    (hc : s.crashed = false) (hw : s.workers[i]? = some .select)
    (hq : s.quitClosed = true) :
    step env req s (.worker i true) = some { s with workers := s.workers.set i .exited } := by
  simp [step, hc, stepWorker, hw, hq]

theorem step_pull {env : Env} {req : SendRequest} {s : State} {i : Nat} {t : UserTask}
    {q : List UserTask} (hc : s.crashed = false) (hw : s.workers[i]? = some .select)
    (hq : s.taskChan = t :: q) :
    step env req s (.worker i false) =
      some { s with taskChan := q, workers := s.workers.set i (.pulled t) } := by
  simp [step, hc, stepWorker, hw, hq]

theorem step_drained {env : Env} {req : SendRequest} {s : State} {i : Nat}
    (hc : s.crashed = false) (hw : s.workers[i]? = some .select)
    (hq : s.taskChan = []) (hcl : s.taskClosed = true) :
    step env req s (.worker i false) = some { s with workers := s.workers.set i .exited } := by
  simp [step, hc, stepWorker, hw, hq, hcl]

theorem inv_calm_next {env : Env} {req : SendRequest} {ts : List UserTask} {s : State}
    (hi : Inv env req ts s) (hc : Calm s) (hd : ∀ v e, s.main ≠ .done v e) :
    ∃ a s', step env req s a = some s' ∧ Calm s' := by
  obtain ⟨hcr, hone, hq0⟩ := hc
  by_cases hmain : ∃ s', step env req s .main = some s'
  · obtain ⟨s', hs⟩ := hmain
    exact ⟨.main, s', hs, calm_main ⟨hcr, hone, hq0⟩ hs⟩
  have hwait : s.main = .wait := by
    obtain ⟨a, s', hs⟩ := inv_progress hi hcr hd
    cases hm : s.main with
    | entry => exact absurd hm hi.notEntry
    | fetch => exact absurd hm hi.notFetch
    | done v e => exact absurd hm (hd v e)
    | wait => rfl
    | spawn i =>
      exfalso
      apply hmain
      by_cases hlt : (i : Int) < env.PipelineWorkerPoolSize
      · exact Option.isSome_iff_exists.1 (by simp [step, hcr, stepMain, hm, hlt])
      · exact Option.isSome_iff_exists.1 (by simp [step, hcr, stepMain, hm, hlt])
    | feed rest =>
      exfalso
      apply hmain
      have hlenT := hi.tasks.length_eq
      simp only [List.length_append] at hlenT
      cases rest with
      | nil => exact Option.isSome_iff_exists.1 (by simp [step, hcr, stepMain, hm])
      | cons t rest =>
        have : s.taskChan.length < s.userTasks.length := by
          rw [hi.userTasks]
          simp only [hm, restOf, List.length_cons] at hlenT
          omega
        exact Option.isSome_iff_exists.1 (by simp [step, hcr, stepMain, hm, this])
  have hcl : s.taskClosed = true := hi.closed.2 (Or.inl hwait)
  have hnall : ¬ ∀ w ∈ s.workers, w = .exited := by
    intro hall
    apply hmain
    have : (s.workers.all fun w => decide (w = .exited)) = true := by simpa using hall
    exact Option.isSome_iff_exists.1 (by simp [step, hcr, stepMain, hwait, this])
  by_cases hact : ∃ w ∈ s.workers, active w = true
  · obtain ⟨w, hw, haw⟩ := hact
    have hpos : 0 < s.workers.countP active := List.countP_pos_iff.2 ⟨w, hw, haw⟩
    have hqf : s.quitClosed = false := by
      cases hq : s.quitClosed with
      | false => rfl
      | true =>
        have := hq0 hq
        omega
    obtain ⟨i, hiw⟩ := List.getElem?_of_mem hw
    cases w with
    | select => simp [active] at haw
    | exited => simp [active] at haw
    | pulled t =>
      refine ⟨.worker i false, _, step_exec hcr hiw false, hcr, ?_, fun h => ?_⟩
      · have := countP_set (p := active) hiw
          (.publish (process env req t).1 (process env req t).2)
        simp [active] at this
        show List.countP active (s.workers.set i _) ≤ 1
        omega
      · have h' : s.quitClosed = true := h
        simp [hqf] at h'
    | publish r b =>
      have hlenT := hi.tasks.length_eq
      have hlenR := hi.results.length_eq
      simp only [List.length_append, List.length_map] at hlenT hlenR
      have h1 : 0 < (pubs s.workers).length := List.length_pos_of_mem (mem_pubs hw)
      have hcap : s.resultsChan.length < s.userTasks.length := by
        rw [hi.userTasks]
        omega
      refine ⟨.worker i false, _, step_publish hcr hiw hcap false, hcr, ?_, fun h => ?_⟩
      · have := countP_set (p := active) hiw (if b then .raising else .select)
        show List.countP active (s.workers.set i (if b then .raising else .select)) ≤ 1
        cases b <;> simp [active] at this ⊢ <;> omega
      · have h' : s.quitClosed = true := h
        simp [hqf] at h'
    | raising =>
      have := countP_set (p := active) hiw .exited
      simp [active] at this
      refine ⟨.worker i false, _, step_raise hcr hiw hqf false, hcr, ?_, fun _ => ?_⟩
      · show List.countP active (s.workers.set i _) ≤ 1
        omega
      · show List.countP active (s.workers.set i _) = 0
        omega
  · push_neg at hact
    push_neg at hnall
    obtain ⟨w, hw, hne⟩ := hnall
    have hsel : w = .select := by
      have := hact w hw
      cases w <;> simp_all [active]
    subst hsel
    obtain ⟨i, hiw⟩ := List.getElem?_of_mem hw
    have hzero : s.workers.countP active = 0 := by
      rw [List.countP_eq_zero]
      intro a ha
      simpa using hact a ha
    cases hq : s.quitClosed with
    | true =>
      have := countP_set (p := active) hiw .exited
      simp [active] at this
      refine ⟨.worker i true, _, step_quit hcr hiw hq, hcr, ?_, fun _ => ?_⟩
      · show List.countP active (s.workers.set i _) ≤ 1
        omega
      · show List.countP active (s.workers.set i _) = 0
        omega
    | false =>
      cases hch : s.taskChan with
      | nil =>
        have := countP_set (p := active) hiw .exited
        simp [active] at this
        refine ⟨.worker i false, _, step_drained hcr hiw hch hcl, hcr, ?_, fun _ => ?_⟩
        · show List.countP active (s.workers.set i _) ≤ 1
          omega
        · show List.countP active (s.workers.set i _) = 0
          omega
      | cons t q =>
        have := countP_set (p := active) hiw (.pulled t)
        simp [active] at this
        refine ⟨.worker i false, _, step_pull hcr hiw hch, hcr, ?_, fun h => ?_⟩
        · show List.countP active (s.workers.set i _) ≤ 1
          omega
        · have h' : s.quitClosed = true := h
          simp [hq] at h'

theorem calm_next {env : Env} {req : SendRequest} {s : State} (h : Reach env req init s)
    (hc : Calm s) (hd : ∀ v e, s.main ≠ .done v e) :
    ∃ a s', step env req s a = some s' ∧ Calm s' := by
  rcases reach_init h with rfl | ⟨-, rfl⟩ | ⟨-, rfl⟩ | ⟨-, -, rfl⟩ | ⟨-, ts, -, hr⟩
  · obtain ⟨a, s', hs⟩ := reach_progress h hc.1 hd
    cases a with
    | main => exact ⟨.main, s', hs, calm_main hc hs⟩
    | worker j b => simp [step, stepWorker, init] at hs
  · exact absurd rfl (hd _ _)
  · obtain ⟨a, s', hs⟩ := reach_progress h hc.1 hd
    cases a with
    | main => exact ⟨.main, s', hs, calm_main hc hs⟩
    | worker j b => simp [step, stepWorker, fetchState, init] at hs
  · exact absurd rfl (hd _ _)
  · exact inv_calm_next (reach_inv hr) hc hd

/-- Whatever the request, the supplier, the registry and the pool size, some scheduling
lets `ProcessPrompt` return. -/
theorem returns_under_some_schedule (env : Env) (req : SendRequest) :
    ∃ sched r, ProcessPrompt env req sched = some r := by
  have key : ∀ n s, measure env req s ≤ n → Reach env req init s → Calm s →
      ∃ s' v e, Reach env req init s' ∧ s'.main = .done v e := by
    intro n
    induction n with
    | zero =>
      intro s hn hs hc
      by_cases hd : ∃ v e, s.main = .done v e
      · obtain ⟨v, e, hm⟩ := hd
        exact ⟨s, v, e, hs, hm⟩
      · push_neg at hd
        obtain ⟨a, s', hst, -⟩ := calm_next hs hc hd
        have := trans_measure (step_trans hst)
        omega
    | succ n ih =>
      intro s hn hs hc
      by_cases hd : ∃ v e, s.main = .done v e
      · obtain ⟨v, e, hm⟩ := hd
        exact ⟨s, v, e, hs, hm⟩
      · push_neg at hd
        obtain ⟨a, s', hst, hc'⟩ := calm_next hs hc hd
        have := trans_measure (step_trans hst)
        exact ih s' (by omega) (.tail a hs hst) hc'
  obtain ⟨s', v, e, hs', hm⟩ := key _ init (le_refl _) .refl (by simp [Calm, init])
  obtain ⟨sched, hr⟩ := reach_runSchedule hs'
  exact ⟨sched, (v, e), by simp [ProcessPrompt, hr, hm]⟩

/-- Every `close(quit)`, done or still to come, belongs to one handled task that
raises. -/
theorem reach_raises {env : Env} {req : SendRequest} {ts : List UserTask} {s : State}
    (h : Reach env req (pipelineInit ts) s) :
    s.handled.countP (raises env req) =
        s.workers.countP raiser + (if s.quitClosed then 1 else 0) +
          (if s.crashed then 1 else 0) ∧
      (s.crashed = true → s.quitClosed = true) := by
  induction h with
  | refl => simp [pipelineInit, init]
  | tail a hr hs ih =>
    obtain ⟨h1, h2⟩ := ih
    have ht := step_trans hs
    cases ht with
    | spawn i hc hm hlt => simpa [raiser] using ⟨h1, h2⟩
    | quit l1 l2 hc hw hq =>
      simp only [hw, List.countP_append, List.countP_cons] at h1
      simp [raiser] at h1 ⊢
      exact ⟨h1, h2⟩
    | pull l1 l2 t q hc hw hq =>
      simp only [hw, List.countP_append, List.countP_cons] at h1
      simp [raiser] at h1 ⊢
      exact ⟨h1, h2⟩
    | drained l1 l2 hc hw hq hcl =>
      simp only [hw, List.countP_append, List.countP_cons] at h1
      simp [raiser] at h1 ⊢
      exact ⟨h1, h2⟩
    | exec l1 l2 t hc hw =>
      simp only [hw, List.countP_append, List.countP_cons] at h1
      refine ⟨?_, h2⟩
      cases hp : (process env req t).2 <;>
        simp [raiser, raises, hp, List.countP_cons, List.countP_append] at h1 ⊢ <;> omega
    | publish l1 l2 r b hc hw hlt =>
      simp only [hw, List.countP_append, List.countP_cons] at h1
      cases b <;> simp [raiser] at h1 ⊢ <;> exact ⟨h1, h2⟩
    | raise l1 l2 hc hw hq =>
      simp only [hw, List.countP_append, List.countP_cons] at h1
      simp [raiser, hq, hc] at h1 ⊢
      omega
    | doubleClose l1 l2 hc hw hq =>
      simp only [hw, List.countP_append, List.countP_cons] at h1
      simp [raiser, hq, hc] at h1 ⊢
      omega
    | _ => exact ⟨h1, h2⟩

/-- The process panics only when two tasks of the list raise. -/
theorem crash_needs_two {env : Env} {req : SendRequest} {ts : List UserTask} {s : State}
    (h : Reach env req (pipelineInit ts) s) (hc : s.crashed = true) :
    2 ≤ ts.countP (raises env req) := by
  obtain ⟨h1, h2⟩ := reach_raises h
  have hq := h2 hc
  have hT := (reach_inv h).tasks.countP_eq (raises env req)
  simp only [List.countP_append] at hT
  simp only [hq, hc, if_true] at h1
  omega

/-- A panic of a call of `ProcessPrompt` needs a fetched task list with two tasks that
raise. -/
theorem reach_crash {env : Env} {req : SendRequest} {s : State} (h : Reach env req init s)
    (hc : s.crashed = true) :
    ∃ ts, env.GetUserTasks req.UserID = .ok ts ∧ 2 ≤ ts.countP (raises env req) := by
  rcases reach_init h with rfl | ⟨-, rfl⟩ | ⟨-, rfl⟩ | ⟨-, -, rfl⟩ | ⟨-, ts, hts, hr⟩
  · simp [init] at hc
  · simp [emptyPromptState, init] at hc
  · simp [fetchState, init] at hc
  · simp [fetchErrState, init] at hc
  · exact ⟨ts, hts, crash_needs_two hr hc⟩

theorem verdictOf_cases (b : Bool) : verdictOf b = "benign" ∨ verdictOf b = "malicious" := by
  cases b
  · exact Or.inl rfl
  · exact Or.inr rfl

/-- C3: `ProcessPrompt` returns a non-nil error exactly for the empty prompt; then the
verdict is the empty string and nothing of the pipeline has run (no call of
`GetUserTasks`, no worker, no check, no result).  For a non-empty prompt every return
has a nil error and the verdict `benign` or `malicious`.  The call does return: every
state of a run has returned, or has an enabled action, or is a panic (possible only when
two tasks of the fetched list end in `close(quit)`); no scheduling is longer than
`measure`; and some scheduling returns. -/
theorem C3_error_iff_empty_prompt (env : Env) (req : SendRequest) :
    (req.Prompt = "" →
      ProcessPrompt env req [.main] = some ("", some "empty prompt") ∧
      ∀ s, Reach env req init s →
        s.fetchCalls = 0 ∧ s.workers = [] ∧ s.handled = [] ∧ s.execs = [] ∧
          s.resultsChan = []) ∧
    (∀ sched verdict err, ProcessPrompt env req sched = some (verdict, err) →
      (err ≠ none ↔ req.Prompt = "") ∧ (req.Prompt = "" → verdict = "") ∧
      (req.Prompt ≠ "" → err = none ∧ (verdict = "benign" ∨ verdict = "malicious"))) ∧
    (∀ s, Reach env req init s →
      (∃ verdict err, s.main = .done verdict err) ∨ (∃ a s', step env req s a = some s') ∨
      (s.crashed = true ∧ ∃ ts, env.GetUserTasks req.UserID = .ok ts ∧
        2 ≤ ts.countP (raises env req))) ∧
    (∀ sched s, runSchedule env req sched init = some s →
      sched.length ≤ measure env req init) ∧
    (∃ sched r, ProcessPrompt env req sched = some r) := by
  refine ⟨fun hp => ⟨?_, ?_⟩, ?_, ?_, ?_, returns_under_some_schedule env req⟩
  · simp [ProcessPrompt, runSchedule, step, stepMain, init, hp]
  · intro s hs
    rcases reach_init hs with rfl | ⟨-, rfl⟩ | ⟨hn, -⟩ | ⟨hn, -⟩ | ⟨hn, -⟩
    · exact ⟨rfl, rfl, rfl, rfl, rfl⟩
    · exact ⟨rfl, rfl, rfl, rfl, rfl⟩
    · exact absurd hp hn
    · exact absurd hp hn
    · exact absurd hp hn
  · intro sched verdict err h
    obtain ⟨s, hs, hm⟩ := ProcessPrompt_some h
    simp only at hm
    rcases reach_init hs with rfl | ⟨hp, rfl⟩ | ⟨hp, rfl⟩ | ⟨hp, -, rfl⟩ | ⟨hp, ts, -, hr⟩
    · simp [init] at hm
    · simp only [emptyPromptState, MainPc.done.injEq] at hm
      simp [hp, ← hm.1, ← hm.2]
    · simp [fetchState] at hm
    · simp only [fetchErrState, MainPc.done.injEq] at hm
      simp [hp, ← hm.1, ← hm.2]
    · obtain ⟨-, he, hv⟩ := (reach_inv hr).done _ _ hm
      have := verdictOf_cases (drain s.resultsChan)
      simp [hp, he, hv, this]
  · intro s hs
    by_cases hd : ∃ verdict err, s.main = .done verdict err
    · exact Or.inl hd
    · push_neg at hd
      cases hc : s.crashed with
      | false => exact Or.inr (Or.inl (reach_progress hs hc hd))
      | true => exact Or.inr (Or.inr ⟨rfl, reach_crash hs hc⟩)
  · intro sched s hs
    have := runSchedule_length sched init s hs
    omega

/-- C3 at the empty request. -/
theorem C3_witness :
    emptyRequest.Prompt = "" ∧
      ProcessPrompt failingFetchEnv emptyRequest [.main] = some ("", some "empty prompt") :=
  ⟨rfl, ((C3_error_iff_empty_prompt failingFetchEnv emptyRequest).1 rfl).1⟩

/-- C5: when `GetUserTasks` returns an error, `ProcessPrompt` on a non-empty prompt
returns `benign` with a nil error after two actions of the caller; no other return is
possible, no worker is started, no Check Unit is executed and no result is produced. -/
theorem C5_fetch_error_benign (env : Env) (req : SendRequest) (e : String)
    (hp : req.Prompt ≠ "") (he : env.GetUserTasks req.UserID = .error e) :
    ProcessPrompt env req [.main, .main] = some ("benign", none) ∧
    (∀ sched r, ProcessPrompt env req sched = some r → r = ("benign", none)) ∧
    (∀ s, Reach env req init s →
      s.workers = [] ∧ s.handled = [] ∧ s.execs = [] ∧ s.resultsChan = [] ∧
        s.crashed = false) := by
  have key : ∀ s, Reach env req init s → s = init ∨ s = fetchState ∨ s = fetchErrState := by
    intro s hs
    rcases reach_init hs with rfl | ⟨h1, -⟩ | ⟨-, rfl⟩ | ⟨-, -, rfl⟩ | ⟨-, ts, hts, -⟩
    · exact Or.inl rfl
    · exact absurd h1 hp
    · exact Or.inr (Or.inl rfl)
    · exact Or.inr (Or.inr rfl)
    · rw [he] at hts
      cases hts
  refine ⟨?_, ?_, ?_⟩
  · simp [ProcessPrompt, runSchedule, step, stepMain, init, hp, he, verdictOf]
  · intro sched r h
    obtain ⟨s, hs, hm⟩ := ProcessPrompt_some h
    rcases key s hs with rfl | rfl | rfl
    · simp [init] at hm
    · simp [fetchState] at hm
    · simp only [fetchErrState, MainPc.done.injEq] at hm
      exact Prod.ext hm.1.symm hm.2.symm
  · intro s hs
    rcases key s hs with rfl | rfl | rfl <;> simp [init, fetchState, fetchErrState]

/-- C5 at a supplier that fails. -/
theorem C5_witness :
    sampleRequest.Prompt ≠ "" ∧
      failingFetchEnv.GetUserTasks sampleRequest.UserID = .error "mongo: no reachable servers" ∧
      ProcessPrompt failingFetchEnv sampleRequest [.main, .main] = some ("benign", none) :=
  ⟨by decide, rfl,
    (C5_fetch_error_benign failingFetchEnv sampleRequest "mongo: no reachable servers"
      (by decide) rfl).1⟩

theorem runSchedule_cons {env : Env} {req : SendRequest} {s s1 : State} {a : Actor}
    {as : List Actor} (h : step env req s a = some s1) :
    runSchedule env req (a :: as) s = runSchedule env req as s1 := by
  simp [runSchedule, h]

/-- With no worker, the caller sends the remaining tasks, closes the queue and
drains. -/
theorem run_feed (env : Env) (req : SendRequest) :
    ∀ (rest : List UserTask) (s : State), s.main = .feed rest → s.workers = [] →
      s.crashed = false → s.taskChan.length + rest.length ≤ s.userTasks.length →
      ∃ s', runSchedule env req (List.replicate (rest.length + 2) .main) s = some s' ∧
        s'.main = .done (verdictOf (drain s.resultsChan)) none
  | [], s, hm, hw, hc, _ => by
    simp [runSchedule, step, stepMain, hm, hw, hc, List.replicate]
  | t :: rest, s, hm, hw, hc, hl => by
    have hlt : s.taskChan.length < s.userTasks.length := by
      simp only [List.length_cons] at hl
      omega
    obtain ⟨s', h1, h2⟩ := run_feed env req rest
      { s with taskChan := s.taskChan ++ [t], main := .feed rest } rfl hw hc (by
        simp only [List.length_append, List.length_cons, List.length_nil] at hl ⊢
        omega)
    refine ⟨s', ?_, h2⟩
    have e : step env req s .main =
        some { s with taskChan := s.taskChan ++ [t], main := .feed rest } := by
      simp [step, hc, stepMain, hm, hlt]
    rw [show (t :: rest).length + 2 = (rest.length + 2) + 1 by simp, List.replicate_succ,
      runSchedule_cons e]
    exact h1

/-- A pipeline run on the empty task list handles nothing and never panics. -/
theorem inv_nil {env : Env} {req : SendRequest} {s : State} (hi : Inv env req [] s) :
    s.handled = [] ∧ s.execs = [] ∧ s.resultsChan = [] ∧ s.crashed = false := by
  have hT := hi.tasks
  have hR := hi.results
  simp only [List.perm_nil, List.append_eq_nil] at hT
  have hh : s.handled = [] := hT.1.1.1
  simp only [hh, List.map_nil, List.perm_nil, List.append_eq_nil] at hR
  refine ⟨hh, by simp [hi.execs, hh], hR.1, ?_⟩
  cases hc : s.crashed with
  | false => rfl
  | true =>
    obtain ⟨r, hr, -⟩ := hi.raised (Or.inr (Or.inl hc))
    simp [hR.1] at hr

/-- The number of started workers never exceeds the pool size. -/
theorem inv_workers_le {env : Env} {req : SendRequest} {ts : List UserTask} {s : State}
    (hi : Inv env req ts s) : s.workers.length ≤ poolSize env := by
  have h1 := hi.started
  cases hm : s.main with
  | spawn i =>
    have := hi.spawnLe i hm
    simp only [hm] at h1
    omega
  | _ => simp only [hm] at h1; omega

/-- Once the caller is past the `go` loop, exactly the pool size has been started. -/
theorem inv_workers_done {env : Env} {req : SendRequest} {ts : List UserTask} {s : State}
    (hi : Inv env req ts s) {v : String} {e : Option String} (hm : s.main = .done v e) :
    s.workers.length = poolSize env := by
  have h1 := hi.started
  simpa only [hm] using h1

/-- With no worker in the pool nothing is ever handled. -/
theorem reach_no_workers {env : Env} {req : SendRequest} {ts : List UserTask} {s : State}
    (h0 : poolSize env = 0) (h : Reach env req (pipelineInit ts) s) :
    s.workers = [] ∧ s.handled = [] ∧ s.execs = [] ∧ s.resultsChan = [] ∧ s.crashed = false ∧
      s.quitClosed = false := by
  induction h with
  | refl => simp [pipelineInit, init]
  | tail a hr hs ih =>
    obtain ⟨hw, hh, hx, hrs, hc, hq⟩ := ih
    have hlen := inv_workers_le (reach_inv (.tail a hr hs))
    have ht := step_trans hs
    cases ht with
    | spawn i =>
      simp only [List.length_append, List.length_cons, List.length_nil] at hlen
      omega
    | quit l1 l2 _ h1 => simp [hw] at h1
    | pull l1 l2 _ _ _ h1 => simp [hw] at h1
    | drained l1 l2 _ h1 => simp [hw] at h1
    | exec l1 l2 _ _ h1 => simp [hw] at h1
    | publish l1 l2 _ _ _ h1 => simp [hw] at h1
    | raise l1 l2 _ h1 => simp [hw] at h1
    | doubleClose l1 l2 _ h1 => simp [hw] at h1
    | _ => exact ⟨hw, hh, hx, hrs, hc, hq⟩

/-- C4 (amended): for a non-empty prompt and an empty task list the pool is started
all the same.  In every state of the run no Check Unit has been executed, no result
has been produced, the process has not panicked, and at most the configured number of
workers has been started; when `ProcessPrompt` returns, the error is nil, exactly
that number of workers has been started and all of them have exited; the run is never
stuck and takes at most `2 * size + 5` actions. -/
theorem C4_empty_task_list_starts_pool (env : Env) (req : SendRequest)
    (hp : req.Prompt ≠ "") (he : env.GetUserTasks req.UserID = .ok []) :
    (∀ s, Reach env req init s →
      s.handled = [] ∧ s.execs = [] ∧ s.resultsChan = [] ∧ s.crashed = false ∧
        s.workers.length ≤ env.PipelineWorkerPoolSize.toNat) ∧
    (∀ s verdict err, Reach env req init s → s.main = .done verdict err →
      err = none ∧ s.workers.length = env.PipelineWorkerPoolSize.toNat ∧
        ∀ w ∈ s.workers, w = .exited) ∧
    (∀ s, Reach env req init s →
      (∃ verdict err, s.main = .done verdict err) ∨ ∃ a s', step env req s a = some s') ∧
    (∀ sched s, runSchedule env req sched init = some s →
      sched.length ≤ 2 * env.PipelineWorkerPoolSize.toNat + 5) := by
  have key : ∀ s, Reach env req init s →
      s = init ∨ s = fetchState ∨ Reach env req (pipelineInit []) s := by
    intro s hs
    rcases reach_init hs with rfl | ⟨h1, -⟩ | ⟨-, rfl⟩ | ⟨-, ⟨e, h1⟩, -⟩ | ⟨-, ts, hts, hr⟩
    · exact Or.inl rfl
    · exact absurd h1 hp
    · exact Or.inr (Or.inl rfl)
    · rw [he] at h1
      cases h1
    · rw [he] at hts
      cases hts
      exact Or.inr (Or.inr hr)
  have quiet : ∀ s, Reach env req init s →
      s.handled = [] ∧ s.execs = [] ∧ s.resultsChan = [] ∧ s.crashed = false ∧
        s.workers.length ≤ env.PipelineWorkerPoolSize.toNat := by
    intro s hs
    rcases key s hs with rfl | rfl | hr
    · simp [init]
    · simp [fetchState, init]
    · obtain ⟨h1, h2, h3, h4⟩ := inv_nil (reach_inv hr)
      exact ⟨h1, h2, h3, h4, inv_workers_le (reach_inv hr)⟩
  refine ⟨quiet, ?_, ?_, ?_⟩
  · intro s verdict err hs hm
    rcases key s hs with rfl | rfl | hr
    · simp [init] at hm
    · simp [fetchState] at hm
    · exact ⟨((reach_inv hr).done _ _ hm).2.1, inv_workers_done (reach_inv hr) hm,
        ((reach_inv hr).done _ _ hm).1⟩
  · intro s hs
    by_cases hd : ∃ verdict err, s.main = .done verdict err
    · exact Or.inl hd
    · push_neg at hd
      exact Or.inr (reach_progress hs (quiet s hs).2.2.2.1 hd)
  · intro sched s hs
    have := runSchedule_length sched init s hs
    simp only [measure, init, he, poolSize, List.length_nil, List.map_nil, List.sum_nil] at this
    omega

/-- C4 (amended) at a pool of one worker: the returned state has one worker. -/
theorem C4_witness :
    sampleRequest.Prompt ≠ "" ∧
      (sampleEnv [] 1).GetUserTasks sampleRequest.UserID = .ok [] ∧
      emptyListReturned.workers.length = (sampleEnv [] 1).PipelineWorkerPoolSize.toNat :=
  ⟨by decide, rfl,
    ((C4_empty_task_list_starts_pool (sampleEnv [] 1) sampleRequest (by decide) rfl).2.1
      emptyListReturned "malicious" none
      (runSchedule_reach [.main, .main, .main, .main, .main, .worker 0 false, .main] _ _
        (by decide)) rfl).2.1⟩

/-- C4 (counterexample): with an empty task list and a pool of one worker the call
returns `malicious`, and one worker has been started. -/
theorem C4_counterexample :
    (runSchedule (sampleEnv [] 1) sampleRequest
        [.main, .main, .main, .main, .main, .worker 0 false, .main] init).map
      (fun s => (s.main, s.workers)) = some (.done "malicious" none, [.exited]) := by
  decide

/-- C8 (amended): with `workerPoolSize = 0` no worker is started and no Task Result is
produced, yet the run completes: the sends are buffered and `wg.Wait()` has nothing to
wait for, so the caller is never stuck, needs at most `5 * len(userTasks) + 5` actions
and `ProcessPrompt` returns a verdict with a nil error. -/
theorem C8_zero_workers_completes (env : Env) (req : SendRequest) (ts : List UserTask)
    (hp : req.Prompt ≠ "") (he : env.GetUserTasks req.UserID = .ok ts)
    (h0 : env.PipelineWorkerPoolSize = 0) :
    (∀ s, Reach env req init s →
      s.workers = [] ∧ s.handled = [] ∧ s.execs = [] ∧ s.resultsChan = [] ∧
        s.crashed = false) ∧
    (∀ s, Reach env req init s →
      (∃ verdict err, s.main = .done verdict err) ∨ ∃ a s', step env req s a = some s') ∧
    (∀ sched s, runSchedule env req sched init = some s →
      sched.length ≤ 5 * ts.length + 5) ∧
    (∃ verdict, ProcessPrompt env req (List.replicate (ts.length + 5) .main) =
      some (verdict, none)) := by
  have hps : poolSize env = 0 := by simp [poolSize, h0]
  have key : ∀ s, Reach env req init s →
      s = init ∨ s = fetchState ∨ Reach env req (pipelineInit ts) s := by
    intro s hs
    rcases reach_init hs with rfl | ⟨h1, -⟩ | ⟨-, rfl⟩ | ⟨-, ⟨e, h1⟩, -⟩ | ⟨-, ts', hts, hr⟩
    · exact Or.inl rfl
    · exact absurd h1 hp
    · exact Or.inr (Or.inl rfl)
    · rw [he] at h1
      cases h1
    · rw [he] at hts
      cases hts
      exact Or.inr (Or.inr hr)
  have quiet : ∀ s, Reach env req init s →
      s.workers = [] ∧ s.handled = [] ∧ s.execs = [] ∧ s.resultsChan = [] ∧
        s.crashed = false := by
    intro s hs
    rcases key s hs with rfl | rfl | hr
    · simp [init]
    · simp [fetchState, init]
    · obtain ⟨h1, h2, h3, h4, h5, -⟩ := reach_no_workers hps hr
      exact ⟨h1, h2, h3, h4, h5⟩
  refine ⟨quiet, ?_, ?_, ?_⟩
  · intro s hs
    by_cases hd : ∃ verdict err, s.main = .done verdict err
    · exact Or.inl hd
    · push_neg at hd
      exact Or.inr (reach_progress hs (quiet s hs).2.2.2.2 hd)
  · intro sched s hs
    have := runSchedule_length sched init s hs
    simp only [measure, init, he, hps, List.length_nil, List.map_nil, List.sum_nil] at this
    omega
  · obtain ⟨s', h1, h2⟩ := run_feed env req ts
      { init with fetchCalls := 1, userTasks := ts, main := .feed ts } rfl rfl rfl
      (by simp [init])
    refine ⟨verdictOf (drain []), ?_⟩
    rw [show ts.length + 5 = (ts.length + 2) + 1 + 1 + 1 by omega, List.replicate_succ,
      List.replicate_succ, List.replicate_succ]
    have e1 : step env req init .main = some fetchState := by
      simp [step, stepMain, init, hp, fetchState]
    have e2 : step env req fetchState .main = some (pipelineInit ts) := by
      simp [step, stepMain, init, he, fetchState, pipelineInit]
    have e3 : step env req (pipelineInit ts) .main =
        some { init with fetchCalls := 1, userTasks := ts, main := .feed ts } := by
      simp [step, stepMain, init, pipelineInit, h0]
    rw [ProcessPrompt, runSchedule_cons e1, runSchedule_cons e2, runSchedule_cons e3, h1]
    simp [h2, init]

/-- C8 (amended) at one task and no worker. -/
theorem C8_witness :
    sampleRequest.Prompt ≠ "" ∧
      (sampleEnv ["external-api"] 0).GetUserTasks sampleRequest.UserID =
        .ok [{ UserID := 7, Task := { Typ := "external-api" } }] ∧
      (sampleEnv ["external-api"] 0).PipelineWorkerPoolSize = 0 ∧
      ∃ verdict, ProcessPrompt (sampleEnv ["external-api"] 0) sampleRequest
        (List.replicate 6 .main) = some (verdict, none) :=
  ⟨by decide, rfl, rfl,
    (C8_zero_workers_completes (sampleEnv ["external-api"] 0) sampleRequest
      [{ UserID := 7, Task := { Typ := "external-api" } }] (by decide) rfl rfl).2.2.2⟩

/-- C8 (counterexample): with `workerPoolSize = 0` and one task the pipeline run
completes: `ProcessPrompt` returns after six actions of the caller. -/
theorem C8_counterexample :
    ProcessPrompt (sampleEnv ["external-api"] 0) sampleRequest
      [.main, .main, .main, .main, .main, .main] = some ("malicious", none) := by
  decide

/-- C1 (code defect): one `external-api` task whose Check Unit returns `passed = false`,
one worker: `ProcessPrompt` returns `benign`, not `malicious`. -/
theorem C1_failing_check_returns_benign :
    ProcessPrompt (rejectingEnv ["external-api"] 1) sampleRequest oneWorkerSchedule =
      some ("benign", none) := by
  decide

/-- C2 (code defect): one registered task whose Check Unit returns `passed = true`, one
worker: `ProcessPrompt` returns `malicious`, not `benign`. -/
theorem C2_passing_check_returns_malicious :
    ProcessPrompt (sampleEnv ["external-api"] 1) sampleRequest oneWorkerSchedule =
      some ("malicious", none) := by
  decide

/-- C6 (code defect): two workers, two `external-api` tasks whose check rejects.  After
worker 0 has closed `quit`, worker 1 stands at its own `close(quit)`; its next action
closes the closed channel and the process panics. -/
theorem C6_quit_closed_twice :
    (runSchedule (rejectingEnv ["external-api", "external-api"] 2) sampleRequest
        twoWorkersInFlight init).map (fun s => (s.quitClosed, s.workers, s.crashed)) =
      some (true, [.exited, .raising], false) ∧
    (runSchedule (rejectingEnv ["external-api", "external-api"] 2) sampleRequest
        (twoWorkersInFlight ++ [.worker 1 false]) init).map (fun s => s.crashed) =
      some true := by
  decide

/-- Whatever the scheduling, a call that returns with a failing task in the list
returns `benign`, and one that returns with none returns `malicious`. -/
theorem returns_by_task_list (env : Env) (req : SendRequest) (ts : List UserTask)
    (hp : req.Prompt ≠ "") (he : env.GetUserTasks req.UserID = .ok ts)
    (hpool : 1 ≤ env.PipelineWorkerPoolSize) (sched : List Actor) (r : String × Option String)
    (h : ProcessPrompt env req sched = some r) :
    r = (if allPass env req ts then "malicious" else "benign", none) := by
  obtain ⟨s, hs, hm⟩ := ProcessPrompt_some h
  have := reach_done hs hm hpool
  simp only [returned, hp, he, if_false, verdictOf] at this
  exact this

/-- C7: with a pool of at least one worker, any two runs of `ProcessPrompt` on the same
request, supplier and registry that return, return the same verdict and error, whatever
their schedulings. -/
theorem C7_verdict_independent_of_schedule (env : Env) (req : SendRequest)
    (hpool : 1 ≤ env.PipelineWorkerPoolSize) (sched1 sched2 : List Actor)
    (r1 r2 : String × Option String) (h1 : ProcessPrompt env req sched1 = some r1)
    (h2 : ProcessPrompt env req sched2 = some r2) : r1 = r2 := by
  obtain ⟨s1, hs1, hm1⟩ := ProcessPrompt_some h1
  obtain ⟨s2, hs2, hm2⟩ := ProcessPrompt_some h2
  have e1 := reach_done hs1 hm1 hpool
  have e2 := reach_done hs2 hm2 hpool
  exact e1.trans e2.symm

/-- C7 at two schedulings of two workers on a passing and a failing task. -/
theorem C7_witness :
    (1 : Int) ≤ (sampleEnv ["external-api", "deny"] 2).PipelineWorkerPoolSize ∧
      ProcessPrompt (sampleEnv ["external-api", "deny"] 2) sampleRequest sequentialSchedule =
        some ("benign", none) ∧
      ProcessPrompt (sampleEnv ["external-api", "deny"] 2) sampleRequest interleavedSchedule =
        some ("benign", none) ∧
      (("benign", none) : String × Option String) = ("benign", none) :=
  ⟨by decide, by decide, by decide,
    C7_verdict_independent_of_schedule (sampleEnv ["external-api", "deny"] 2) sampleRequest
      (by decide) sequentialSchedule interleavedSchedule _ _ (by decide) (by decide)⟩

/-- C9: a worker that has received a task of an unregistered type (1) moves on to
publish the result `Success = false` with the error `task type <type> not found`,
without executing a Check Unit and without touching `resultsChan` or `quit`; (2) from
any later state of the run in which it still stands at that send, sends exactly this
result and is back at its `select`, leaving `quit` as it was; (3) no action of another
goroutine changes where the worker stands. -/
theorem C9_unregistered_type (env : Env) (req : SendRequest) (s : State) (i : Nat)
    (t : UserTask) (hc : s.crashed = false)
    (hw : s.workers[i]? = some (.pulled t)) (hn : env.tasksMap t.Task.Typ = none) :
    (∀ b, step env req s (.worker i b) = some { s with
        handled := s.handled ++ [t],
        workers := s.workers.set i (.publish
          ⟨t.Task.Typ, false, some ("task type " ++ t.Task.Typ ++ " not found")⟩ false) }) ∧
    (∀ s' b, Reach env req init s' → s'.crashed = false →
      s'.workers[i]? = some (.publish
        ⟨t.Task.Typ, false, some ("task type " ++ t.Task.Typ ++ " not found")⟩ false) →
      step env req s' (.worker i b) = some { s' with
        resultsChan := s'.resultsChan ++
          [⟨t.Task.Typ, false, some ("task type " ++ t.Task.Typ ++ " not found")⟩],
        workers := s'.workers.set i .select }) ∧
    (∀ s1 s2 a w, step env req s1 a = some s2 → s1.workers[i]? = some w →
      (∀ b, a ≠ .worker i b) → s2.workers[i]? = some w) := by
  refine ⟨?_, ?_, ?_⟩
  · intro b
    simp [step, hc, stepWorker, hw, process_notFound hn, hn]
  · intro s' b hs' hc' hw'
    have hcap : s'.resultsChan.length < s'.userTasks.length := by
      rcases reach_init hs' with rfl | ⟨-, rfl⟩ | ⟨-, rfl⟩ | ⟨-, -, rfl⟩ | ⟨-, ts, -, hr⟩
      · simp [init] at hw'
      · simp [emptyPromptState, init] at hw'
      · simp [fetchState, init] at hw'
      · simp [fetchErrState, init] at hw'
      · have hi := reach_inv hr
        have hlenT := hi.tasks.length_eq
        have hlenR := hi.results.length_eq
        simp only [List.length_append, List.length_map] at hlenT hlenR
        have h1 : 0 < (pubs s'.workers).length :=
          List.length_pos_of_mem (mem_pubs (List.getElem?_mem hw'))
        rw [hi.userTasks]
        omega
    simp [step, hc', stepWorker, hw', hcap]
  · intro s1 s2 a w hst hw1 hne
    have hlt : i < s1.workers.length := by
      by_contra hcon
      rw [List.getElem?_eq_none (by omega)] at hw1
      cases hw1
    have hcr : s1.crashed = false := by
      cases hcr : s1.crashed with
      | false => rfl
      | true => simp [step, hcr] at hst
    cases a with
    | worker j b =>
      have hij : j ≠ i := fun h => hne b (by rw [h])
      obtain ⟨w', hw'⟩ := stepWorker_workers (by simpa [step, hcr] using hst)
      rw [hw', List.getElem?_set_ne hij, hw1]
    | main =>
      rcases stepMain_workers (by simpa [step, hcr] using hst) with h1 | h1
      · rw [h1, hw1]
      · rw [h1, List.getElem?_append_left hlt, hw1]

/-- C9 at a worker that holds a task of type `unknown-type`. -/
theorem C9_witness :
    pulledUnknown.crashed = false ∧
      pulledUnknown.workers[0]? =
        some (.pulled { UserID := 7, Task := { Typ := "unknown-type" } }) ∧
      (sampleEnv ["unknown-type"] 1).tasksMap "unknown-type" = none ∧
      step (sampleEnv ["unknown-type"] 1) sampleRequest pulledUnknown (.worker 0 false) =
        some { pulledUnknown with
          handled := [{ UserID := 7, Task := { Typ := "unknown-type" } }],
          workers := [.publish
            ⟨"unknown-type", false, some "task type unknown-type not found"⟩ false] } :=
  ⟨rfl, rfl, by simp [sampleEnv, sampleRegistry],
    (C9_unregistered_type (sampleEnv ["unknown-type"] 1) sampleRequest pulledUnknown 0
      { UserID := 7, Task := { Typ := "unknown-type" } } rfl rfl
      (by simp [sampleEnv, sampleRegistry])).1 false⟩

/-- When every task of the list is registered and passes, no result of the run has
`Success = false`. -/
theorem inv_all_pass {env : Env} {req : SendRequest} {ts : List UserTask} {s : State}
    (hi : Inv env req ts s)
    (hall : ∀ t ∈ ts, ∃ task, env.tasksMap t.Task.Typ = some task ∧ task req = (true, none)) :
    ¬ hasFail s.resultsChan := by
  rintro ⟨r, hr, hf⟩
  have h1 := hi.results.subset (List.mem_append_left _ hr)
  simp only [List.mem_map] at h1
  obtain ⟨t, ht, rfl⟩ := h1
  have htm : t ∈ ts := hi.tasks.subset (by simp [ht])
  obtain ⟨task, h2, h3⟩ := hall t htm
  simp [process_pass h2 h3] at hf

/-- C10: with a pool of at least one worker and a task list in which every type is
registered and every Check Unit passes, under every scheduling `quit` is never closed
and the process never panics, the run is never stuck and takes at most
`2 * size + 5 * len(userTasks) + 5` actions, and when `ProcessPrompt` returns,
`resultsChan` holds exactly one `Success = true` result per submitted task (a
permutation of the submitted list, so `len(userTasks)` results) and a Check Unit has
been executed on every submitted task exactly once. -/
theorem C10_all_pass_run (env : Env) (req : SendRequest) (ts : List UserTask)
    (hp : req.Prompt ≠ "") (he : env.GetUserTasks req.UserID = .ok ts)
    (hpool : 1 ≤ env.PipelineWorkerPoolSize)
    (hall : ∀ t ∈ ts, ∃ task, env.tasksMap t.Task.Typ = some task ∧ task req = (true, none)) :
    (∀ s, Reach env req init s → s.quitClosed = false ∧ s.crashed = false) ∧
    (∀ s, Reach env req init s →
      (∃ verdict err, s.main = .done verdict err) ∨ ∃ a s', step env req s a = some s') ∧
    (∀ sched s, runSchedule env req sched init = some s →
      sched.length ≤ 2 * env.PipelineWorkerPoolSize.toNat + 5 * ts.length + 5) ∧
    (∀ s verdict err, Reach env req init s → s.main = .done verdict err →
      s.resultsChan.Perm (ts.map fun t => ⟨t.Task.Typ, true, none⟩) ∧
        s.resultsChan.length = ts.length ∧ s.execs.Perm ts) := by
  have key : ∀ s, Reach env req init s →
      s = init ∨ s = fetchState ∨ Reach env req (pipelineInit ts) s := by
    intro s hs
    rcases reach_init hs with rfl | ⟨h1, -⟩ | ⟨-, rfl⟩ | ⟨-, ⟨e, h1⟩, -⟩ | ⟨-, ts', hts, hr⟩
    · exact Or.inl rfl
    · exact absurd h1 hp
    · exact Or.inr (Or.inl rfl)
    · rw [he] at h1
      cases h1
    · rw [he] at hts
      cases hts
      exact Or.inr (Or.inr hr)
  have quiet : ∀ s, Reach env req init s → s.quitClosed = false ∧ s.crashed = false := by
    intro s hs
    rcases key s hs with rfl | rfl | hr
    · simp [init]
    · simp [fetchState, init]
    · have hi := reach_inv hr
      have hnf := inv_all_pass hi hall
      constructor
      · cases hq : s.quitClosed with
        | false => rfl
        | true => exact absurd (hi.raised (Or.inl hq)) hnf
      · cases hc : s.crashed with
        | false => rfl
        | true => exact absurd (hi.raised (Or.inr (Or.inl hc))) hnf
  refine ⟨quiet, ?_, ?_, ?_⟩
  · intro s hs
    by_cases hd : ∃ verdict err, s.main = .done verdict err
    · exact Or.inl hd
    · push_neg at hd
      exact Or.inr (reach_progress hs (quiet s hs).2 hd)
  · intro sched s hs
    have := runSchedule_length sched init s hs
    simp only [measure, init, he, poolSize, List.length_nil, List.map_nil, List.sum_nil] at this
    omega
  · intro s verdict err hs hm
    rcases key s hs with rfl | rfl | hr
    · simp [init] at hm
    · simp [fetchState] at hm
    · have hi := reach_inv hr
      obtain ⟨-, -, h3⟩ := inv_done hi hm hpool
      obtain ⟨h4, h5⟩ := h3 (inv_all_pass hi hall)
      have hmap : (ts.map fun t => (process env req t).1) =
          ts.map fun t => (⟨t.Task.Typ, true, none⟩ : TaskResult) := by
        apply List.map_congr_left
        intro t ht
        obtain ⟨task, h6, h7⟩ := hall t ht
        rw [process_pass h6 h7]
      rw [hmap] at h5
      refine ⟨h5, by simpa using h5.length_eq, ?_⟩
      rw [hi.execs]
      have : (s.handled.filter fun t => (env.tasksMap t.Task.Typ).isSome) = s.handled := by
        rw [List.filter_eq_self]
        intro t ht
        obtain ⟨task, h6, -⟩ := hall t (h4.subset ht)
        simp [h6]
      rw [this]
      exact h4

/-- C10 at one passing task and one worker. -/
theorem C10_witness :
    sampleRequest.Prompt ≠ "" ∧
      (sampleEnv ["external-api"] 1).GetUserTasks sampleRequest.UserID =
        .ok [{ UserID := 7, Task := { Typ := "external-api" } }] ∧
      (1 : Int) ≤ (sampleEnv ["external-api"] 1).PipelineWorkerPoolSize ∧
      onePassReturned.resultsChan.length = 1 :=
  ⟨by decide, rfl, by decide,
    ((C10_all_pass_run (sampleEnv ["external-api"] 1) sampleRequest
      [{ UserID := 7, Task := { Typ := "external-api" } }] (by decide) rfl (by decide)
      (by
        intro t ht
        simp only [List.mem_singleton] at ht
        subst ht
        exact ⟨passing, by simp [sampleEnv, sampleRegistry], rfl⟩)).2.2.2
      onePassReturned "malicious" none
      (runSchedule_reach oneWorkerSchedule _ _ (by decide)) rfl).2.1⟩

end Guardian
